import Mathlib

/-!
# Verification of the RPC dispatch layer of the open group server

A shallow embedding of `src/rpc.rs`: the request envelope, the context
extractors `get_room_id` / `get_auth_token`, and the dispatcher
`handle_rpc_call` with its three per-method routers. External
collaborators that live outside this repository's core (the `http` URI
parser, the `errors::Error` enum, the storage pool and the domain
handlers) are modelled from the specification, as noted on each such
definition. JSON parsing and the serde-derived deserializers are modelled
executably so that every routing decision can be evaluated on concrete
envelopes.
-/

set_option linter.unusedVariables false

namespace OpenGroupServer

/-! ## Characters

The scanner works on character lists; the braces are named to keep string
literals in this file brace-free. -/

def lbrace : Char := Char.ofNat 123

def rbrace : Char := Char.ofNat 125

/-- JSON insignificant whitespace. -/
def isWs (c : Char) : Bool :=
  c = ' ' || c = '\t' || c = '\n' || c = '\r'

def skipWs : List Char → List Char
  | [] => []
  | c :: cs => if isWs c then skipWs cs else c :: cs

/-- Consume a maximal run of decimal digits. -/
def takeDigits : List Char → List Char × List Char
  | [] => ([], [])
  | c :: cs =>
    if c.isDigit then
      let p := takeDigits cs
      (c :: p.1, p.2)
    else ([], c :: cs)

def digitsToNat (ds : List Char) : Nat :=
  ds.foldl (fun a c => 10 * a + (c.toNat - 48)) 0

/-! ## JSON values and the text parser

This models `serde_json` as used by rpc.rs. Numbers are modelled as
integers: every typed decode target of this layer (`u16`, `i64`, strings,
string maps) is non-fractional, and a fractional numeral fails those
typed decodes exactly as it fails to parse here. String escape sequences
are not modelled: the strings this layer decodes round-trip without
them. -/

mutual
inductive Json where
  | null : Json
  | bool (b : Bool) : Json
  | num (n : Int) : Json
  | str (s : String) : Json
  | arr (xs : JsonList) : Json
  | obj (kvs : JsonObj) : Json
  deriving DecidableEq

inductive JsonList where
  | nil : JsonList
  | cons (hd : Json) (tl : JsonList) : JsonList
  deriving DecidableEq

inductive JsonObj where
  | nil : JsonObj
  | cons (k : String) (v : Json) (tl : JsonObj) : JsonObj
  deriving DecidableEq
end

/-- Parse a JSON unsigned numeral: one or more digits, a leading zero only
for the numeral `0` itself. -/
def parseNatNum (cs : List Char) : Option (Nat × List Char) :=
  match takeDigits cs with
  | ([], _) => none
  | (d :: ds, rest) =>
    if d = '0' ∧ ds ≠ [] then none
    else some (digitsToNat (d :: ds), rest)

/-- Parse a JSON numeral with an optional leading minus sign. -/
def parseNumTok (cs : List Char) : Option (Int × List Char) :=
  match cs with
  | [] => none
  | c :: cs' =>
    if c = '-' then (parseNatNum cs').map (fun p => (-(p.1 : Int), p.2))
    else (parseNatNum cs).map (fun p => ((p.1 : Int), p.2))

/-- Parse the body of a JSON string literal after the opening quote: any
characters up to the closing quote, no escapes. -/
def parseStrBody : List Char → Option (List Char × List Char)
  | [] => none
  | c :: cs =>
    if c = '"' then some ([], cs)
    else if c = '\\' then none
    else (parseStrBody cs).map (fun p => (c :: p.1, p.2))

/-- Expect the given literal characters at the head of the input. -/
def expectLit : List Char → List Char → Option (List Char)
  | [], cs => some cs
  | _ :: _, [] => none
  | l :: ls, c :: cs => if c = l then expectLit ls cs else none

/-- Intermediate result of the fuel-indexed parser. -/
inductive PRes where
  | v (j : Json)
  | l (xs : JsonList)
  | o (kvs : JsonObj)
  deriving DecidableEq

/-- Parser mode: a single value, the elements of a non-empty array, or the
members of a non-empty object. -/
inductive PMode where
  | val
  | arrElems
  | objElems
  deriving DecidableEq

/-- Fuel-indexed recursive-descent JSON parser. -/
def parseF : Nat → PMode → List Char → Option (PRes × List Char)
  | 0, _, _ => none
  | fuel + 1, .val, cs =>
    match skipWs cs with
    | [] => none
    | c :: cs' =>
      if c = 'n' then (expectLit ['u', 'l', 'l'] cs').map (fun r => (.v .null, r))
      else if c = 't' then (expectLit ['r', 'u', 'e'] cs').map (fun r => (.v (.bool true), r))
      else if c = 'f' then (expectLit ['a', 'l', 's', 'e'] cs').map (fun r => (.v (.bool false), r))
      else if c = '"' then (parseStrBody cs').map (fun p => (.v (.str ⟨p.1⟩), p.2))
      else if c = '[' then
        match skipWs cs' with
        | [] => none
        | d :: ds =>
          if d = ']' then some (.v (.arr .nil), ds)
          else
            match parseF fuel .arrElems (d :: ds) with
            | some (.l xs, r) => some (.v (.arr xs), r)
            | _ => none
      else if c = lbrace then
        match skipWs cs' with
        | [] => none
        | d :: ds =>
          if d = rbrace then some (.v (.obj .nil), ds)
          else
            match parseF fuel .objElems (d :: ds) with
            | some (.o kvs, r) => some (.v (.obj kvs), r)
            | _ => none
      else if c = '-' ∨ c.isDigit then
        (parseNumTok (c :: cs')).map (fun p => (.v (.num p.1), p.2))
      else none
  | fuel + 1, .arrElems, cs =>
    match parseF fuel .val cs with
    | some (.v j, r) =>
      (match skipWs r with
       | [] => none
       | d :: ds =>
         if d = ',' then
           match parseF fuel .arrElems ds with
           | some (.l tl, r') => some (.l (.cons j tl), r')
           | _ => none
         else if d = ']' then some (.l (.cons j .nil), ds)
         else none)
    | _ => none
  | fuel + 1, .objElems, cs =>
    match skipWs cs with
    | [] => none
    | c :: cs' =>
      if c = '"' then
        match parseStrBody cs' with
        | some (k, r) =>
          (match skipWs r with
           | [] => none
           | d :: ds =>
             if d = ':' then
               match parseF fuel .val ds with
               | some (.v j, r') =>
                 (match skipWs r' with
                  | [] => none
                  | e :: es =>
                    if e = ',' then
                      match parseF fuel .objElems es with
                      | some (.o tl, r'') => some (.o (.cons ⟨k⟩ j tl), r'')
                      | _ => none
                    else if e = rbrace then some (.o (.cons ⟨k⟩ j .nil), es)
                    else none)
               | _ => none
             else none)
        | none => none
      else none

/-- Model of `serde_json::from_str` into a JSON value: parse one value and
require only trailing whitespace. -/
def parseJson (s : String) : Option Json :=
  match parseF (2 * s.length + 2) .val s.data with
  | some (.v j, rest) => if skipWs rest = [] then some j else none
  | _ => none

/-! ## Canonical JSON re-encoding

Serialization of decoded structures, modelled from the spec (§8
round-trip property): serde serialization of the decoded value, with
absent optional fields omitted. -/

def natToCharsAux : Nat → Nat → List Char
  | 0, _ => []
  | fuel + 1, n =>
    if n < 10 then [Char.ofNat (48 + n)]
    else natToCharsAux fuel (n / 10) ++ [Char.ofNat (48 + n % 10)]

/-- Decimal digits of a natural number, most significant first. -/
def natToChars (n : Nat) : List Char := natToCharsAux (n + 1) n

/-- Decimal encoding of an integer. -/
def encInt (n : Int) : List Char :=
  if n < 0 then '-' :: natToChars n.natAbs else natToChars n.toNat

mutual
/-- Canonical textual encoding of a JSON value (no whitespace). -/
def encV : Json → List Char
  | .null => ("null" : String).data
  | .bool true => ("true" : String).data
  | .bool false => ("false" : String).data
  | .num n => encInt n
  | .str s => '"' :: s.data ++ ['"']
  | .arr xs => '[' :: encL xs ++ [']']
  | .obj kvs => lbrace :: encO kvs ++ [rbrace]

def encL : JsonList → List Char
  | .nil => []
  | .cons v .nil => encV v
  | .cons v (.cons w tl) => encV v ++ ',' :: encL (.cons w tl)

def encO : JsonObj → List Char
  | .nil => []
  | .cons k v .nil => '"' :: k.data ++ '"' :: ':' :: encV v
  | .cons k v (.cons k' v' tl) =>
    '"' :: k.data ++ '"' :: ':' :: encV v ++ ',' :: encO (.cons k' v' tl)
end

def encodeJson (j : Json) : String := ⟨encV j⟩

/-- No character of the list is a quote or a backslash, so a string made
of them survives a print/parse round trip without escaping. -/
def strOkChars (cs : List Char) : Bool := cs.all (fun c => c ≠ '"' && c ≠ '\\')

def strOk (s : String) : Bool := strOkChars s.data

mutual
/-- Every string inside the value is escape-free; this holds of every
value the parser produces. -/
def wfV : Json → Bool
  | .str s => strOk s
  | .arr xs => wfL xs
  | .obj kvs => wfO kvs
  | _ => true

def wfL : JsonList → Bool
  | .nil => true
  | .cons v tl => wfV v && wfL tl

def wfO : JsonObj → Bool
  | .nil => true
  | .cons k v tl => strOk k && wfV v && wfO tl
end

def wfP : PRes → Bool
  | .v j => wfV j
  | .l xs => wfL xs
  | .o kvs => wfO kvs

mutual
/-- Fuel needed by `parseF` to parse the canonical encoding. -/
def jsizeV : Json → Nat
  | .arr xs => jsizeL xs + 1
  | .obj kvs => jsizeO kvs + 1
  | _ => 1

def jsizeL : JsonList → Nat
  | .nil => 0
  | .cons v tl => jsizeV v + jsizeL tl + 1

def jsizeO : JsonObj → Nat
  | .nil => 0
  | .cons _ v tl => jsizeV v + jsizeO tl + 1
end

/-- The first character, if any, is not a decimal digit — the shape of
every list that legally follows an encoded numeral. -/
def headNotDigit : List Char → Prop
  | [] => True
  | c :: _ => c.isDigit = false

/-! ## Typed deserialization (serde derive semantics) -/

/-- Deserialization of a JSON value into the `HashMap<String, String>`
used for the `headers` field: the value must be an object all of whose
values are strings. Entries are kept in textual order; repeated keys are
resolved by `hmGet` (last insertion wins, as for hash-map insertion). -/
def decodeStringMapObj : JsonObj → Option (List (String × String))
  | .nil => some []
  | .cons k (.str v) tl => (decodeStringMapObj tl).map (fun m => (k, v) :: m)
  | .cons _ _ _ => none

def decodeStringMap : Json → Option (List (String × String))
  | .obj kvs => decodeStringMapObj kvs
  | _ => none

/-- Lookup after inserting the entries in order into a hash map: the last
occurrence of a repeated key wins. -/
def hmGet (m : List (String × String)) (k : String) : Option String :=
  (m.reverse.find? (fun p => p.1 = k)).map (fun p => p.2)

/-- The struct `QueryOptions` of rpc.rs: `limit: Option<u16>`,
`from_server_id: Option<i64>`. Machine integers are carried as `Nat` and
`Int` with the range enforced at decode time. -/
structure QueryOptions where
  limit : Option Nat
  from_server_id : Option Int
  deriving DecidableEq

/-- The serde-derived deserializer for `QueryOptions`, walking the
object's fields: a known field may appear at most once (a duplicate is an
error), `null` leaves the option empty, a numeral must lie in the field's
machine range, any other value is an error, and an unknown field is
skipped — the struct does not opt into `deny_unknown_fields`. The
accumulators are `none` = not seen yet, `some o` = seen, decoded to
`o`. -/
def decodeQOFields : JsonObj → Option (Option Nat) → Option (Option Int) → Option QueryOptions
  | .nil, lim, fsi => some ⟨lim.getD none, fsi.getD none⟩
  | .cons k v tl, lim, fsi =>
    if k = "limit" then
      match lim with
      | some _ => none
      | none =>
        match v with
        | .null => decodeQOFields tl (some none) fsi
        | .num n =>
          if 0 ≤ n ∧ n < 65536 then decodeQOFields tl (some (some n.toNat)) fsi else none
        | _ => none
    else if k = "from_server_id" then
      match fsi with
      | some _ => none
      | none =>
        match v with
        | .null => decodeQOFields tl lim (some none)
        | .num n =>
          if -(2 ^ 63) ≤ n ∧ n < 2 ^ 63 then decodeQOFields tl lim (some (some n)) else none
        | _ => none
    else decodeQOFields tl lim fsi

def decodeQueryOptions : Json → Option QueryOptions
  | .obj kvs => decodeQOFields kvs none none
  | _ => none

/-- The serde-derived deserializer for the route-local structs that hold a
single required `String` field (the shapes `public_key` of POST
`/block_list`, POST `/claim_auth_token` and the `/auth_token_challenge`
query, and `file` of POST `/files`): the field must appear exactly once
with a string value, unknown fields are skipped, a missing field is an
error. -/
def decodeStrField : String → JsonObj → Option String → Option String
  | _, .nil, acc => acc
  | field, .cons k v tl, acc =>
    if k = field then
      match acc with
      | some _ => none
      | none =>
        match v with
        | .str s => decodeStrField field tl (some s)
        | _ => none
    else decodeStrField field tl acc

def decodeStrObj (field : String) : Json → Option String
  | .obj kvs => decodeStrField field kvs none
  | _ => none

/-- The JSON value serde serialization of a `QueryOptions` produces:
an object with the present fields, absent options omitted. -/
def qoToJson (qo : QueryOptions) : Json :=
  .obj (match qo.limit, qo.from_server_id with
        | some l, some f => .cons "limit" (.num l) (.cons "from_server_id" (.num f) .nil)
        | some l, none => .cons "limit" (.num l) .nil
        | none, some f => .cons "from_server_id" (.num f) .nil
        | none, none => .nil)

/-- Modelled from the spec (§8): re-encoding of decoded query options. -/
def encodeQueryOptions (qo : QueryOptions) : String := encodeJson (qoToJson qo)

/-- The JSON value serde serialization of a one-string-field struct
produces. -/
def strFieldToJson (field s : String) : Json := .obj (.cons field (.str s) .nil)

/-- Modelled from the spec (§8): re-encoding of a decoded one-string-field
struct. -/
def encodeStrObj (field s : String) : String := encodeJson (strFieldToJson field s)

/-! ## Rust string primitives

The standard-library string functions rpc.rs uses, re-implemented on
character lists (all strings routed here are ASCII, so byte indexing and
character indexing agree). -/

/-- Rust `str::parse` into `i64` (and into `isize` on the 64-bit targets
this server runs on): an optional sign, then one or more digits, with the
value inside the signed 64-bit range. -/
def parse_i64 (s : String) : Option Int :=
  let core := match s.data with
    | '-' :: cs => (true, cs)
    | '+' :: cs => (false, cs)
    | cs => (false, cs)
  if core.2 = [] then none
  else if core.2.all Char.isDigit then
    let n : Int := if core.1 then -(digitsToNat core.2 : Int) else (digitsToNat core.2 : Int)
    if -(2 ^ 63) ≤ n ∧ n < 2 ^ 63 then some n else none
  else none

/-- Rust `str::starts_with`. -/
def starts_with (s p : String) : Bool := p.data.isPrefixOf s.data

/-- Rust slicing `&s[1..]`: drop the leading byte. -/
def dropFirst (s : String) : String := ⟨s.data.drop 1⟩

/-- Rust `str::split` at `/` (splitting the empty string gives one empty
piece, and a trailing separator yields a trailing empty piece). -/
def splitSlash : List Char → List (List Char)
  | [] => [[]]
  | c :: cs =>
    if c = '/' then [] :: splitSlash cs
    else
      match splitSlash cs with
      | [] => [[c]]
      | s :: ss => (c :: s) :: ss

def split_on_slash (s : String) : List String :=
  (splitSlash s.data).map (fun cs => ⟨cs⟩)

/-! ## The envelope, the errors and the collaborators -/

/-- The struct `RpcCall` of rpc.rs: the wire-shaped request envelope. -/
structure RpcCall where
  endpoint : String
  body : String
  method : String
  headers : String
  deriving DecidableEq

/-- Modelled from the spec: the error kinds visible to this layer (the
enum `errors::Error` lives outside src/). The dispatcher itself only ever
produces `InvalidRpcCall`; the pool resolver and the domain handlers
produce their own kinds — §7 names "unknown room" among them — modelled
by the two remaining constructors. -/
inductive Error where
  | InvalidRpcCall
  | NoSuchRoom
  | CollaboratorError (kind : Nat)
  deriving DecidableEq

/-- Modelled from the spec: an opaque pool handle owned by the storage
collaborator (`storage::DatabaseConnectionPool` lives outside src/); the
dispatcher only passes it through. -/
structure DatabaseConnectionPool where
  handle : Nat
  deriving DecidableEq

/-- Modelled from the spec, §4.2 gate 2: the result of parsing the
endpoint as a scheme-less URI — a path plus an optional query. -/
structure Uri where
  path : String
  query : Option String
  deriving DecidableEq

def breakAtQuestionMark : List Char → List Char × Option (List Char)
  | [] => ([], none)
  | c :: cs =>
    if c = '?' then ([], some cs)
    else
      let p := breakAtQuestionMark cs
      (c :: p.1, p.2)

/-- Modelled from the spec, §4.2 gate 2: the `http::Uri` parse of the
endpoint (the `http` crate is external to this repository). The model
splits at the first `?`; an empty endpoint is malformed. -/
def parseUri (endpoint : String) : Option Uri :=
  if endpoint.data = [] then none
  else
    match breakAtQuestionMark endpoint.data with
    | (p, none) => some ⟨⟨p⟩, none⟩
    | (p, some q) => some ⟨⟨p⟩, some ⟨q⟩⟩

/-- A fully-determined call into a domain handler: the handler together
with exactly the arguments the dispatcher passes at the corresponding
call site in rpc.rs. The POST `/messages` payload is kept as the decoded
JSON value — modelled from the spec, which declares the message payload
"opaque to this layer" (the `Message` type lives outside src/). -/
inductive Invocation where
  | get_file (file_id : String)
  | get_messages (query_options : QueryOptions) (pool : DatabaseConnectionPool)
  | get_deleted_messages (query_options : QueryOptions) (pool : DatabaseConnectionPool)
  | get_moderators (pool : DatabaseConnectionPool)
  | get_banned_public_keys (pool : DatabaseConnectionPool)
  | get_member_count (pool : DatabaseConnectionPool)
  | get_auth_token_challenge (public_key : String) (pool : DatabaseConnectionPool)
  | insert_message (message : Json) (auth_token : Option String) (pool : DatabaseConnectionPool)
  | ban (public_key : String) (auth_token : Option String) (pool : DatabaseConnectionPool)
  | claim_auth_token (public_key : String) (auth_token : Option String)
      (pool : DatabaseConnectionPool)
  | store_file (file : String) (pool : DatabaseConnectionPool)
  | delete_message (server_id : Int) (auth_token : Option String)
      (pool : DatabaseConnectionPool)
  | unban (public_key : String) (auth_token : Option String) (pool : DatabaseConnectionPool)
  | delete_auth_token (auth_token : Option String) (pool : DatabaseConnectionPool)
  deriving DecidableEq

/-! ## The dispatcher, function by function from rpc.rs -/

/-- The function `get_auth_token` of rpc.rs: empty headers give absent; headers
that do not decode as a string-to-string map give absent; otherwise the
`Authorization` entry, verbatim. -/
def get_auth_token (rpc_call : RpcCall) : Option String :=
  if rpc_call.headers.data = [] then none
  else
    match (parseJson rpc_call.headers).bind decodeStringMap with
    | none => none
    | some headers => hmGet headers "Authorization"

/-- The function `get_room_id` of rpc.rs: empty headers give absent;
undecodable headers give absent; otherwise the `Room` entry parsed as a
signed integer, with parse failure giving absent. -/
def get_room_id (rpc_call : RpcCall) : Option Int :=
  if rpc_call.headers.data = [] then none
  else
    match (parseJson rpc_call.headers).bind decodeStringMap with
    | none => none
    | some headers =>
      match hmGet headers "Room" with
      | none => none
      | some header => parse_i64 header

/-- The function `handle_get_request` of rpc.rs. -/
def handle_get_request (rpc_call : RpcCall) (uri : Uri) (pool : DatabaseConnectionPool) :
    Except Error Invocation :=
  if starts_with uri.path "/files" then
    match split_on_slash (dropFirst uri.path) with
    | [_, file_id] => .ok (.get_file file_id)
    | _ => .error .InvalidRpcCall
  else
    match uri.path with
    | "/messages" =>
      match uri.query with
      | some query =>
        match (parseJson query).bind decodeQueryOptions with
        | some query_options => .ok (.get_messages query_options pool)
        | none => .error .InvalidRpcCall
      | none => .error .InvalidRpcCall
    | "/deleted_messages" =>
      match uri.query with
      | some query =>
        match (parseJson query).bind decodeQueryOptions with
        | some query_options => .ok (.get_deleted_messages query_options pool)
        | none => .error .InvalidRpcCall
      | none => .error .InvalidRpcCall
    | "/moderators" => .ok (.get_moderators pool)
    | "/block_list" => .ok (.get_banned_public_keys pool)
    | "/member_count" => .ok (.get_member_count pool)
    | "/auth_token_challenge" =>
      match uri.query with
      | some query =>
        match (parseJson query).bind (decodeStrObj "public_key") with
        | some public_key => .ok (.get_auth_token_challenge public_key pool)
        | none => .error .InvalidRpcCall
      | none => .error .InvalidRpcCall
    | _ => .error .InvalidRpcCall

/-- The function `handle_post_request` of rpc.rs. -/
def handle_post_request (rpc_call : RpcCall) (uri : Uri) (auth_token : Option String)
    (pool : DatabaseConnectionPool) : Except Error Invocation :=
  match uri.path with
  | "/messages" =>
    match parseJson rpc_call.body with
    | some message => .ok (.insert_message message auth_token pool)
    | none => .error .InvalidRpcCall
  | "/block_list" =>
    match (parseJson rpc_call.body).bind (decodeStrObj "public_key") with
    | some public_key => .ok (.ban public_key auth_token pool)
    | none => .error .InvalidRpcCall
  | "/claim_auth_token" =>
    match (parseJson rpc_call.body).bind (decodeStrObj "public_key") with
    | some public_key => .ok (.claim_auth_token public_key auth_token pool)
    | none => .error .InvalidRpcCall
  | "/files" =>
    match (parseJson rpc_call.body).bind (decodeStrObj "file") with
    | some file => .ok (.store_file file pool)
    | none => .error .InvalidRpcCall
  | _ => .error .InvalidRpcCall

/-- The function `handle_delete_request` of rpc.rs. -/
def handle_delete_request (rpc_call : RpcCall) (uri : Uri) (auth_token : Option String)
    (pool : DatabaseConnectionPool) : Except Error Invocation :=
  if starts_with uri.path "/messages" then
    match split_on_slash (dropFirst uri.path) with
    | [_, seg] =>
      match parse_i64 seg with
      | some server_id => .ok (.delete_message server_id auth_token pool)
      | none => .error .InvalidRpcCall
    | _ => .error .InvalidRpcCall
  else if starts_with uri.path "/block_list" then
    match split_on_slash (dropFirst uri.path) with
    | [_, public_key] => .ok (.unban public_key auth_token pool)
    | _ => .error .InvalidRpcCall
  else if uri.path = "/auth_token" then
    .ok (.delete_auth_token auth_token pool)
  else .error .InvalidRpcCall

/-- The function `handle_rpc_call` of rpc.rs: the gates in source order —
room id from the headers, pool resolution through the external resolver
(`storage::pool_by_room_id`, passed in as a function), the endpoint URI
parse, then the dispatch on the method string. -/
def handle_rpc_call (pool_by_room_id : Int → Except Error DatabaseConnectionPool)
    (rpc_call : RpcCall) : Except Error Invocation :=
  match get_room_id rpc_call with
  | none => .error .InvalidRpcCall
  | some room_id =>
    match pool_by_room_id room_id with
    | .error e => .error e
    | .ok pool =>
      match parseUri rpc_call.endpoint with
      | none => .error .InvalidRpcCall
      | some uri =>
        let auth_token := get_auth_token rpc_call
        match rpc_call.method with
        | "GET" => handle_get_request rpc_call uri pool
        | "POST" => handle_post_request rpc_call uri auth_token pool
        | "DELETE" => handle_delete_request rpc_call uri auth_token pool
        | _ => .error .InvalidRpcCall

/-! ## Helper lemmas -/

theorem string_eta (s : String) : (⟨s.data⟩ : String) = s := by
  cases s
  rfl

theorem parseJson_of_data_nil (s : String) (h : s.data = []) : parseJson s = none := by
  cases s
  cases h
  rfl

/-! ## Claims -/

/-- C1: for every envelope the dispatcher first extracts the room id from
the headers; if it is absent the outcome is `InvalidRpcCall`, and
otherwise the pool resolver is consulted before any endpoint or method
validation — whatever the endpoint and method fields hold, a resolver
failure surfaces as the resolver's own error kind unchanged, never
rewrapped as `InvalidRpcCall`. -/
theorem C1_room_gate_first (pool_by_room_id : Int → Except Error DatabaseConnectionPool)
    (rpc_call : RpcCall) :
    (get_room_id rpc_call = none →
      handle_rpc_call pool_by_room_id rpc_call = .error .InvalidRpcCall)
  ∧ (∀ room_id e, get_room_id rpc_call = some room_id →
      pool_by_room_id room_id = .error e →
      handle_rpc_call pool_by_room_id rpc_call = .error e) := by
  refine ⟨fun h => ?_, fun room_id e h1 h2 => ?_⟩
  · simp only [handle_rpc_call, h]
  · simp only [handle_rpc_call, h1, h2]

/-- Witness for C1: a concrete envelope with empty headers is rejected as
`InvalidRpcCall`, and a concrete envelope with room 7, a malformed
endpoint and an unknown method surfaces the failing resolver's
`NoSuchRoom` unchanged. -/
theorem C1_room_gate_first_witness :
    handle_rpc_call (fun _ => .ok ⟨0⟩) ⟨"/messages", "", "GET", ""⟩ =
      .error .InvalidRpcCall
  ∧ handle_rpc_call (fun _ => .error .NoSuchRoom)
      ⟨"no leading slash", "", "PUT", "\x7b\"Room\":\"7\"\x7d"⟩ = .error .NoSuchRoom :=
  ⟨(C1_room_gate_first _ _).1 (by rfl),
   (C1_room_gate_first _ _).2 7 .NoSuchRoom (by rfl) (by rfl)⟩

/-- C4: room and auth extraction are total and never produce an error —
empty headers give absent for both; headers that do not decode as a
string-to-string mapping give absent for both; a decoded mapping whose
`Room` value is the string form of a signed integer yields that integer,
and a non-integer `Room` value yields absent. -/
theorem C4_context_extraction_total (rpc_call : RpcCall) :
    (rpc_call.headers.data = [] →
      get_room_id rpc_call = none ∧ get_auth_token rpc_call = none)
  ∧ ((parseJson rpc_call.headers).bind decodeStringMap = none →
      get_room_id rpc_call = none ∧ get_auth_token rpc_call = none)
  ∧ (∀ m s n, (parseJson rpc_call.headers).bind decodeStringMap = some m →
      hmGet m "Room" = some s → parse_i64 s = some n → get_room_id rpc_call = some n)
  ∧ (∀ m s, (parseJson rpc_call.headers).bind decodeStringMap = some m →
      hmGet m "Room" = some s → parse_i64 s = none → get_room_id rpc_call = none) := by
  by_cases hd : rpc_call.headers.data = []
  · have hp : (parseJson rpc_call.headers).bind decodeStringMap = none := by
      rw [parseJson_of_data_nil _ hd]
      rfl
    refine ⟨fun _ => ?_, fun _ => ?_, fun m s n h1 _ _ => ?_, fun m s h1 _ _ => ?_⟩
    · exact ⟨by simp only [get_room_id, hd, if_pos], by simp only [get_auth_token, hd, if_pos]⟩
    · exact ⟨by simp only [get_room_id, hd, if_pos], by simp only [get_auth_token, hd, if_pos]⟩
    · rw [hp] at h1
      exact absurd h1 (by simp)
    · rw [hp] at h1
      exact absurd h1 (by simp)
  · refine ⟨fun h => absurd h hd, fun h => ?_, fun m s n h1 h2 h3 => ?_, fun m s h1 h2 h3 => ?_⟩
    · exact ⟨by simp [get_room_id, hd, h], by simp [get_auth_token, hd, h]⟩
    · simp [get_room_id, hd, h1, h2, h3]
    · simp [get_room_id, hd, h1, h2, h3]

/-- Witness for C4: concrete headers exercising all four branches — empty
headers, undecodable headers, `Room: "-3"`, and `Room: "xyz"`. -/
theorem C4_context_extraction_total_witness :
    (get_room_id ⟨"", "", "", ""⟩ = none ∧ get_auth_token ⟨"", "", "", ""⟩ = none)
  ∧ (get_room_id ⟨"", "", "", "not json"⟩ = none ∧ get_auth_token ⟨"", "", "", "not json"⟩ = none)
  ∧ get_room_id ⟨"", "", "", "\x7b\"Room\":\"-3\"\x7d"⟩ = some (-3)
  ∧ get_room_id ⟨"", "", "", "\x7b\"Room\":\"xyz\"\x7d"⟩ = none :=
  ⟨(C4_context_extraction_total _).1 (by rfl),
   (C4_context_extraction_total _).2.1 (by rfl),
   (C4_context_extraction_total _).2.2.1 [("Room", "-3")] "-3" (-3) (by rfl) (by rfl) (by rfl),
   (C4_context_extraction_total _).2.2.2 [("Room", "xyz")] "xyz" (by rfl) (by rfl) (by rfl)⟩

/-- C5: an envelope whose method string is not exactly `GET`, `POST` or
`DELETE` (case-sensitive) is rejected as `InvalidRpcCall` regardless of
its path and body, provided the earlier gates do not fail first — that
is, whenever the external pool resolver yields a pool for the extracted
room id (when the room id is absent the outcome is `InvalidRpcCall` as
well, by C1). -/
theorem C5_method_gate (pool_by_room_id : Int → Except Error DatabaseConnectionPool)
    (rpc_call : RpcCall)
    (hm : rpc_call.method ≠ "GET" ∧ rpc_call.method ≠ "POST" ∧ rpc_call.method ≠ "DELETE")
    (hpool : ∀ room_id, get_room_id rpc_call = some room_id →
      ∃ pool, pool_by_room_id room_id = .ok pool) :
    handle_rpc_call pool_by_room_id rpc_call = .error .InvalidRpcCall := by
  cases hroom : get_room_id rpc_call with
  | none => simp only [handle_rpc_call, hroom]
  | some room_id =>
    obtain ⟨pool, hp⟩ := hpool room_id hroom
    cases huri : parseUri rpc_call.endpoint with
    | none => simp only [handle_rpc_call, hroom, hp, huri]
    | some uri =>
      simp only [handle_rpc_call, hroom, hp, huri]
      split
      · exact absurd (by assumption) hm.1
      · exact absurd (by assumption) hm.2.1
      · exact absurd (by assumption) hm.2.2
      · rfl

/-- Witness for C5: the concrete method `PUT` with a well-formed room and
a succeeding resolver is rejected as `InvalidRpcCall`. -/
theorem C5_method_gate_witness :
    handle_rpc_call (fun _ => .ok ⟨0⟩) ⟨"/messages", "", "PUT", "\x7b\"Room\":\"7\"\x7d"⟩ =
      .error .InvalidRpcCall :=
  C5_method_gate _ _ ⟨by decide, by decide, by decide⟩ (fun _ _ => ⟨⟨0⟩, rfl⟩)

/-- C10: an empty trailing dynamic segment passes the two-segment check —
GET `/files/` invokes file-fetch with the empty string as id, and DELETE
`/block_list/` invokes the unban operation with the empty string as
public key; neither is rejected as `InvalidRpcCall`. -/
theorem C10_empty_trailing_segment (rpc_call : RpcCall) (q : Option String)
    (auth_token : Option String) (pool : DatabaseConnectionPool) :
    handle_get_request rpc_call ⟨"/files/", q⟩ pool = .ok (.get_file "")
  ∧ handle_delete_request rpc_call ⟨"/block_list/", q⟩ auth_token pool =
      .ok (.unban "" auth_token pool) :=
  ⟨rfl, rfl⟩

/-- Counterexample to C2: the GET path `/filesX/y` matches none of the
seven tabulated GET patterns (its first segment is `filesX`, not `files`),
yet the file-fetch operation is invoked with id `"y"` — rpc.rs matches
the files route with `starts_with("/files")`, a prefix test on the raw
path, not on a path segment. -/
theorem C2_counterexample :
    handle_rpc_call (fun _ => .ok ⟨0⟩) ⟨"/filesX/y", "", "GET", "\x7b\"Room\":\"7\"\x7d"⟩ =
      .ok (.get_file "y") := by rfl

/-- C2 (amended): the files route is matched by the raw prefix `/files`
(so paths such as `/filesX/y` reach file-fetch), and likewise DELETE
matches the prefixes `/messages` and `/block_list`; with that caveat the
claim holds — a GET path that does not start with `/files` and is not one
of the six literal GET paths invokes no operation and yields
`InvalidRpcCall`, and a DELETE path that starts with neither `/messages`
nor `/block_list` and is not exactly `/auth_token` invokes no operation
and yields `InvalidRpcCall`. -/
theorem C2_unmatched_path_rejected :
    (∀ rpc_call uri pool, starts_with uri.path "/files" = false →
      uri.path ∉ (["/messages", "/deleted_messages", "/moderators", "/block_list",
                   "/member_count", "/auth_token_challenge"] : List String) →
      handle_get_request rpc_call uri pool = .error .InvalidRpcCall)
  ∧ (∀ rpc_call uri auth_token pool, starts_with uri.path "/messages" = false →
      starts_with uri.path "/block_list" = false → uri.path ≠ "/auth_token" →
      handle_delete_request rpc_call uri auth_token pool = .error .InvalidRpcCall) := by
  constructor
  · intro rpc_call uri pool h1 h2
    simp only [List.mem_cons, List.mem_singleton, not_or] at h2
    obtain ⟨n1, n2, n3, n4, n5, n6, -⟩ := h2
    unfold handle_get_request
    rw [if_neg (by simp [h1])]
    split
    · exact absurd (by assumption) n1
    · exact absurd (by assumption) n2
    · exact absurd (by assumption) n3
    · exact absurd (by assumption) n4
    · exact absurd (by assumption) n5
    · exact absurd (by assumption) n6
    · rfl
  · intro rpc_call uri auth_token pool h1 h2 h3
    unfold handle_delete_request
    rw [if_neg (by simp [h1]), if_neg (by simp [h2]), if_neg h3]

/-- Witness for the amended C2: the concrete unmatched GET path `/rooms`
and DELETE path `/rooms` are rejected as `InvalidRpcCall`. -/
theorem C2_unmatched_path_rejected_witness :
    handle_get_request ⟨"/rooms", "", "GET", ""⟩ ⟨"/rooms", none⟩ ⟨0⟩ =
      .error .InvalidRpcCall
  ∧ handle_delete_request ⟨"/rooms", "", "DELETE", ""⟩ ⟨"/rooms", none⟩ none ⟨0⟩ =
      .error .InvalidRpcCall :=
  ⟨C2_unmatched_path_rejected.1 _ _ _ (by rfl) (by decide),
   C2_unmatched_path_rejected.2 _ _ _ _ (by rfl) (by rfl) (by decide)⟩

/-- Counterexample to C7: decoding is not strict against unknown fields.
The GET `/messages` query `(limit 10, foo "bar")` contains the field
`foo`, which is not in the QueryOptions schema, yet the request is
accepted and list-messages is invoked — the serde-derived deserializers
of rpc.rs do not opt into `deny_unknown_fields`, so unknown fields are
silently ignored. -/
theorem C7_counterexample :
    handle_get_request ⟨"", "", "GET", ""⟩
      ⟨"/messages", some "\x7b\"limit\":10,\"foo\":\"bar\"\x7d"⟩ ⟨0⟩ =
      .ok (.get_messages ⟨some 10, none⟩ ⟨0⟩) := by rfl

/-- C7 (amended): decoding is schema-per-route and rejects malformed
values of known fields, but an unknown field is silently skipped rather
than rejected — for the QueryOptions decoder and for the one-string-field
decoders, dropping an unknown field from the front of the object leaves
the decode result unchanged, while a known field with a value of the
wrong type (for example a string under `limit`) is rejected. -/
theorem C7_unknown_fields_ignored :
    (∀ k v kvs lim fsi, k ≠ "limit" → k ≠ "from_server_id" →
      decodeQOFields (.cons k v kvs) lim fsi = decodeQOFields kvs lim fsi)
  ∧ (∀ k v kvs, k ≠ "limit" → k ≠ "from_server_id" →
      decodeQueryOptions (.obj (.cons k v kvs)) = decodeQueryOptions (.obj kvs))
  ∧ (∀ field k v kvs acc, k ≠ field →
      decodeStrField field (.cons k v kvs) acc = decodeStrField field kvs acc)
  ∧ (∀ s kvs lim fsi, decodeQOFields (.cons "limit" (.str s) kvs) lim fsi = none) := by
  refine ⟨fun k v kvs lim fsi h1 h2 => ?_, fun k v kvs h1 h2 => ?_,
          fun field k v kvs acc h => ?_, fun s kvs lim fsi => ?_⟩
  · simp only [decodeQOFields, if_neg h1, if_neg h2]
  · simp only [decodeQueryOptions, decodeQOFields, if_neg h1, if_neg h2]
  · simp only [decodeStrField, if_neg h]
  · simp only [decodeQOFields, if_pos rfl]
    cases lim <;> rfl

/-- Witness for the amended C7: dropping the concrete unknown field
`(foo, "bar")` leaves both decoders' results unchanged, and a string
under `limit` is rejected. -/
theorem C7_unknown_fields_ignored_witness :
    decodeQOFields (.cons "foo" (.str "bar") .nil) none none = decodeQOFields .nil none none
  ∧ decodeQueryOptions (.obj (.cons "foo" (.str "bar") .nil)) = decodeQueryOptions (.obj .nil)
  ∧ decodeStrField "public_key" (.cons "foo" (.str "bar") .nil) none =
      decodeStrField "public_key" .nil none
  ∧ decodeQOFields (.cons "limit" (.str "x") .nil) none none = none :=
  ⟨C7_unknown_fields_ignored.1 "foo" _ _ _ _ (by decide) (by decide),
   C7_unknown_fields_ignored.2.1 "foo" _ _ (by decide) (by decide),
   C7_unknown_fields_ignored.2.2.1 "public_key" "foo" _ _ _ (by decide),
   C7_unknown_fields_ignored.2.2.2 "x" .nil none none⟩

/-- C6: for GET `/messages` and GET `/deleted_messages`, a missing or
undecodable query string yields `InvalidRpcCall` without invoking any
operation; when the query decodes as QueryOptions the corresponding list
operation is invoked with exactly the decoded fields — in particular the
query `(limit 10)` invokes list-messages with `limit = 10` and
`from_server_id` absent. -/
theorem C6_messages_query_gate :
    (∀ rpc_call uri pool, uri.path = "/messages" ∨ uri.path = "/deleted_messages" →
      (uri.query = none → handle_get_request rpc_call uri pool = .error .InvalidRpcCall)
      ∧ (∀ q, uri.query = some q → (parseJson q).bind decodeQueryOptions = none →
          handle_get_request rpc_call uri pool = .error .InvalidRpcCall)
      ∧ (∀ q query_options, uri.query = some q →
          (parseJson q).bind decodeQueryOptions = some query_options →
          handle_get_request rpc_call uri pool =
            if uri.path = "/messages" then .ok (.get_messages query_options pool)
            else .ok (.get_deleted_messages query_options pool)))
  ∧ (∀ rpc_call pool,
      handle_get_request rpc_call ⟨"/messages", some "\x7b\"limit\":10\x7d"⟩ pool =
        .ok (.get_messages ⟨some 10, none⟩ pool)) := by
  constructor
  · rintro rpc_call ⟨path, oq⟩ pool (rfl | rfl)
    · refine ⟨fun hq => ?_, fun q hq hdec => ?_, fun q query_options hq hdec => ?_⟩
      · cases hq
        rfl
      · cases hq
        have step : handle_get_request rpc_call ⟨"/messages", some q⟩ pool =
            match (parseJson q).bind decodeQueryOptions with
            | some query_options => .ok (.get_messages query_options pool)
            | none => .error .InvalidRpcCall := rfl
        rw [step, hdec]
      · cases hq
        have step : handle_get_request rpc_call ⟨"/messages", some q⟩ pool =
            match (parseJson q).bind decodeQueryOptions with
            | some query_options => .ok (.get_messages query_options pool)
            | none => .error .InvalidRpcCall := rfl
        rw [step, hdec, if_pos rfl]
    · refine ⟨fun hq => ?_, fun q hq hdec => ?_, fun q query_options hq hdec => ?_⟩
      · cases hq
        rfl
      · cases hq
        have step : handle_get_request rpc_call ⟨"/deleted_messages", some q⟩ pool =
            match (parseJson q).bind decodeQueryOptions with
            | some query_options => .ok (.get_deleted_messages query_options pool)
            | none => .error .InvalidRpcCall := rfl
        rw [step, hdec]
      · cases hq
        have step : handle_get_request rpc_call ⟨"/deleted_messages", some q⟩ pool =
            match (parseJson q).bind decodeQueryOptions with
            | some query_options => .ok (.get_deleted_messages query_options pool)
            | none => .error .InvalidRpcCall := rfl
        rw [step, hdec]
        simp
  · intro rpc_call pool
    rfl

/-- Witness for C6: a concrete GET `/messages` with no query and one with
the undecodable query `limit=10` are rejected; the decodable-query part
is exercised by the hypothesis-free final conjunct of the theorem. -/
theorem C6_messages_query_gate_witness :
    handle_get_request ⟨"", "", "", ""⟩ ⟨"/messages", none⟩ ⟨0⟩ = .error .InvalidRpcCall
  ∧ handle_get_request ⟨"", "", "", ""⟩ ⟨"/messages", some "limit=10"⟩ ⟨0⟩ =
      .error .InvalidRpcCall
  ∧ handle_get_request ⟨"", "", "", ""⟩ ⟨"/deleted_messages", some "\x7b\"limit\":10\x7d"⟩ ⟨0⟩ =
      .ok (.get_deleted_messages ⟨some 10, none⟩ ⟨0⟩) :=
  ⟨((C6_messages_query_gate.1 _ ⟨"/messages", none⟩ _ (Or.inl rfl)).1 rfl),
   ((C6_messages_query_gate.1 _ ⟨"/messages", some "limit=10"⟩ _ (Or.inl rfl)).2.1
      "limit=10" rfl (by rfl)),
   ((C6_messages_query_gate.1 _ ⟨"/deleted_messages", some "\x7b\"limit\":10\x7d"⟩ _
      (Or.inr rfl)).2.2 "\x7b\"limit\":10\x7d" ⟨some 10, none⟩ rfl (by rfl))⟩

/-- C3: for GET on the files route and DELETE on the messages route, the
operation is invoked exactly when the path splits into exactly two
segments after the leading slash; a missing or over-long dynamic tail
yields `InvalidRpcCall`; GET `/files/abc123` invokes file-fetch with id
`"abc123"`; DELETE `/messages/42` invokes delete-message with the signed
64-bit integer 42; and DELETE `/messages/abc`, whose tail is not a signed
64-bit integer, yields `InvalidRpcCall`. -/
theorem C3_dynamic_tail_rule :
    (∀ rpc_call uri pool, starts_with uri.path "/files" = true →
      (((split_on_slash (dropFirst uri.path)).length ≠ 2 →
          handle_get_request rpc_call uri pool = .error .InvalidRpcCall)
       ∧ ((∃ file_id, handle_get_request rpc_call uri pool = .ok (.get_file file_id)) ↔
            (split_on_slash (dropFirst uri.path)).length = 2)))
  ∧ (∀ rpc_call uri auth_token pool, starts_with uri.path "/messages" = true →
      (split_on_slash (dropFirst uri.path)).length ≠ 2 →
        handle_delete_request rpc_call uri auth_token pool = .error .InvalidRpcCall)
  ∧ (∀ rpc_call pool,
      handle_get_request rpc_call ⟨"/files/abc123", none⟩ pool = .ok (.get_file "abc123"))
  ∧ (∀ rpc_call auth_token pool,
      handle_delete_request rpc_call ⟨"/messages/42", none⟩ auth_token pool =
        .ok (.delete_message 42 auth_token pool))
  ∧ (∀ rpc_call auth_token pool,
      handle_delete_request rpc_call ⟨"/messages/abc", none⟩ auth_token pool =
        .error .InvalidRpcCall) := by
  refine ⟨fun rpc_call uri pool h => ?_, fun rpc_call uri auth_token pool h hlen => ?_,
          fun rpc_call pool => rfl, fun rpc_call auth_token pool => rfl,
          fun rpc_call auth_token pool => rfl⟩
  · unfold handle_get_request
    rw [if_pos h]
    cases hsp : split_on_slash (dropFirst uri.path) with
    | nil =>
      refine ⟨fun _ => rfl, ⟨fun hex => ?_, fun hlen => ?_⟩⟩
      · obtain ⟨file_id, hid⟩ := hex
        exact Except.noConfusion hid
      · simp at hlen
    | cons a rest =>
      cases rest with
      | nil =>
        refine ⟨fun _ => rfl, ⟨fun hex => ?_, fun hlen => ?_⟩⟩
        · obtain ⟨file_id, hid⟩ := hex
          exact Except.noConfusion hid
        · simp at hlen
      | cons b rest2 =>
        cases rest2 with
        | nil =>
          refine ⟨fun hlen => absurd rfl hlen, ⟨fun _ => rfl, fun _ => ⟨b, rfl⟩⟩⟩
        | cons c rest3 =>
          refine ⟨fun _ => rfl, ⟨fun hex => ?_, fun hlen => ?_⟩⟩
          · obtain ⟨file_id, hid⟩ := hex
            exact Except.noConfusion hid
          · simp at hlen
  · unfold handle_delete_request
    rw [if_pos h]
    cases hsp : split_on_slash (dropFirst uri.path) with
    | nil => rfl
    | cons a rest =>
      cases rest with
      | nil => rfl
      | cons b rest2 =>
        cases rest2 with
        | nil =>
          rw [hsp] at hlen
          exact absurd rfl hlen
        | cons c rest3 => rfl

/-- Witness for C3: the concrete paths `/files` (one segment),
`/files/a/b` (three segments) and the DELETE path `/messages` are all
rejected as `InvalidRpcCall`. -/
theorem C3_dynamic_tail_rule_witness :
    handle_get_request ⟨"", "", "", ""⟩ ⟨"/files", none⟩ ⟨0⟩ = .error .InvalidRpcCall
  ∧ handle_get_request ⟨"", "", "", ""⟩ ⟨"/files/a/b", none⟩ ⟨0⟩ = .error .InvalidRpcCall
  ∧ handle_delete_request ⟨"", "", "", ""⟩ ⟨"/messages", none⟩ none ⟨0⟩ =
      .error .InvalidRpcCall :=
  ⟨(C3_dynamic_tail_rule.1 _ _ _ (by rfl)).1 (by decide),
   (C3_dynamic_tail_rule.1 _ _ _ (by rfl)).1 (by decide),
   C3_dynamic_tail_rule.2.1 _ _ _ _ (by rfl) (by decide)⟩

/-- Counterexample to C8: the auth token is not passed to the POST
`/files` store-file operation, and the pool handle is not passed to the
GET `/files/x` file-fetch operation. Concretely, adding an
`Authorization` header to a POST `/files` envelope leaves the invocation
unchanged (so the token cannot have been passed), and the invocation of a
GET `/files/abc` envelope is identical under two resolvers returning
distinct pools (so the pool cannot have been passed), the invocations
being `store_file` with only the file and the pool, and `get_file` with
only the id. -/
theorem C8_counterexample :
    handle_rpc_call (fun _ => .ok ⟨0⟩)
        ⟨"/files", "\x7b\"file\":\"data\"\x7d", "POST",
         "\x7b\"Room\":\"7\",\"Authorization\":\"tok\"\x7d"⟩ =
      handle_rpc_call (fun _ => .ok ⟨0⟩)
        ⟨"/files", "\x7b\"file\":\"data\"\x7d", "POST", "\x7b\"Room\":\"7\"\x7d"⟩
  ∧ handle_rpc_call (fun _ => .ok ⟨0⟩)
        ⟨"/files", "\x7b\"file\":\"data\"\x7d", "POST",
         "\x7b\"Room\":\"7\",\"Authorization\":\"tok\"\x7d"⟩ =
      .ok (.store_file "data" ⟨0⟩)
  ∧ handle_rpc_call (fun _ => .ok ⟨1⟩) ⟨"/files/abc", "", "GET", "\x7b\"Room\":\"7\"\x7d"⟩ =
      handle_rpc_call (fun _ => .ok ⟨2⟩) ⟨"/files/abc", "", "GET", "\x7b\"Room\":\"7\"\x7d"⟩
  ∧ handle_rpc_call (fun _ => .ok ⟨1⟩) ⟨"/files/abc", "", "GET", "\x7b\"Room\":\"7\"\x7d"⟩ =
      .ok (.get_file "abc") :=
  ⟨rfl, rfl, rfl, rfl⟩

/-- C8 (amended): every dispatched operation is invoked with its parsed
arguments; the pool handle is passed to every operation except GET
`/files/{id}` file-fetch, which receives only the file id; the auth token
is passed to the POST `/messages`, `/block_list` and `/claim_auth_token`
operations and to every DELETE operation, but not to POST `/files`
store-file, which receives only the file and the pool, and not to any GET
operation. -/
theorem C8_arguments_per_route :
    (∀ rpc_call uri pool a file_id, starts_with uri.path "/files" = true →
      split_on_slash (dropFirst uri.path) = [a, file_id] →
      handle_get_request rpc_call uri pool = .ok (.get_file file_id))
  ∧ (∀ rpc_call q pool query_options,
      (parseJson q).bind decodeQueryOptions = some query_options →
      handle_get_request rpc_call ⟨"/messages", some q⟩ pool =
        .ok (.get_messages query_options pool)
      ∧ handle_get_request rpc_call ⟨"/deleted_messages", some q⟩ pool =
        .ok (.get_deleted_messages query_options pool))
  ∧ (∀ rpc_call oq pool,
      handle_get_request rpc_call ⟨"/moderators", oq⟩ pool = .ok (.get_moderators pool)
      ∧ handle_get_request rpc_call ⟨"/block_list", oq⟩ pool = .ok (.get_banned_public_keys pool)
      ∧ handle_get_request rpc_call ⟨"/member_count", oq⟩ pool = .ok (.get_member_count pool))
  ∧ (∀ rpc_call q pool public_key,
      (parseJson q).bind (decodeStrObj "public_key") = some public_key →
      handle_get_request rpc_call ⟨"/auth_token_challenge", some q⟩ pool =
        .ok (.get_auth_token_challenge public_key pool))
  ∧ (∀ rpc_call oq auth_token pool message, parseJson rpc_call.body = some message →
      handle_post_request rpc_call ⟨"/messages", oq⟩ auth_token pool =
        .ok (.insert_message message auth_token pool))
  ∧ (∀ rpc_call oq auth_token pool public_key,
      (parseJson rpc_call.body).bind (decodeStrObj "public_key") = some public_key →
      handle_post_request rpc_call ⟨"/block_list", oq⟩ auth_token pool =
        .ok (.ban public_key auth_token pool)
      ∧ handle_post_request rpc_call ⟨"/claim_auth_token", oq⟩ auth_token pool =
        .ok (.claim_auth_token public_key auth_token pool))
  ∧ (∀ rpc_call oq auth_token pool file,
      (parseJson rpc_call.body).bind (decodeStrObj "file") = some file →
      handle_post_request rpc_call ⟨"/files", oq⟩ auth_token pool =
        .ok (.store_file file pool))
  ∧ (∀ rpc_call uri auth_token pool a seg server_id,
      starts_with uri.path "/messages" = true →
      split_on_slash (dropFirst uri.path) = [a, seg] → parse_i64 seg = some server_id →
      handle_delete_request rpc_call uri auth_token pool =
        .ok (.delete_message server_id auth_token pool))
  ∧ (∀ rpc_call uri auth_token pool a public_key,
      starts_with uri.path "/messages" = false →
      starts_with uri.path "/block_list" = true →
      split_on_slash (dropFirst uri.path) = [a, public_key] →
      handle_delete_request rpc_call uri auth_token pool =
        .ok (.unban public_key auth_token pool))
  ∧ (∀ rpc_call oq auth_token pool,
      handle_delete_request rpc_call ⟨"/auth_token", oq⟩ auth_token pool =
        .ok (.delete_auth_token auth_token pool)) := by
  refine ⟨fun rpc_call uri pool a file_id h hsp => ?_,
          fun rpc_call q pool query_options h => ⟨?_, ?_⟩,
          fun rpc_call oq pool => ⟨rfl, rfl, rfl⟩,
          fun rpc_call q pool public_key h => ?_,
          fun rpc_call oq auth_token pool message h => ?_,
          fun rpc_call oq auth_token pool public_key h => ⟨?_, ?_⟩,
          fun rpc_call oq auth_token pool file h => ?_,
          fun rpc_call uri auth_token pool a seg server_id h hsp hparse => ?_,
          fun rpc_call uri auth_token pool a public_key h1 h2 hsp => ?_,
          fun rpc_call oq auth_token pool => rfl⟩
  · unfold handle_get_request
    rw [if_pos h, hsp]
  · have step : handle_get_request rpc_call ⟨"/messages", some q⟩ pool =
        match (parseJson q).bind decodeQueryOptions with
        | some query_options => .ok (.get_messages query_options pool)
        | none => .error .InvalidRpcCall := rfl
    rw [step, h]
  · have step : handle_get_request rpc_call ⟨"/deleted_messages", some q⟩ pool =
        match (parseJson q).bind decodeQueryOptions with
        | some query_options => .ok (.get_deleted_messages query_options pool)
        | none => .error .InvalidRpcCall := rfl
    rw [step, h]
  · have step : handle_get_request rpc_call ⟨"/auth_token_challenge", some q⟩ pool =
        match (parseJson q).bind (decodeStrObj "public_key") with
        | some public_key => .ok (.get_auth_token_challenge public_key pool)
        | none => .error .InvalidRpcCall := rfl
    rw [step, h]
  · have step : handle_post_request rpc_call ⟨"/messages", oq⟩ auth_token pool =
        match parseJson rpc_call.body with
        | some message => .ok (.insert_message message auth_token pool)
        | none => .error .InvalidRpcCall := rfl
    rw [step, h]
  · have step : handle_post_request rpc_call ⟨"/block_list", oq⟩ auth_token pool =
        match (parseJson rpc_call.body).bind (decodeStrObj "public_key") with
        | some public_key => .ok (.ban public_key auth_token pool)
        | none => .error .InvalidRpcCall := rfl
    rw [step, h]
  · have step : handle_post_request rpc_call ⟨"/claim_auth_token", oq⟩ auth_token pool =
        match (parseJson rpc_call.body).bind (decodeStrObj "public_key") with
        | some public_key => .ok (.claim_auth_token public_key auth_token pool)
        | none => .error .InvalidRpcCall := rfl
    rw [step, h]
  · have step : handle_post_request rpc_call ⟨"/files", oq⟩ auth_token pool =
        match (parseJson rpc_call.body).bind (decodeStrObj "file") with
        | some file => .ok (.store_file file pool)
        | none => .error .InvalidRpcCall := rfl
    rw [step, h]
  · unfold handle_delete_request
    rw [if_pos h, hsp]
    show (match parse_i64 seg with
          | some server_id => Except.ok (Invocation.delete_message server_id auth_token pool)
          | none => Except.error Error.InvalidRpcCall) =
      Except.ok (Invocation.delete_message server_id auth_token pool)
    rw [hparse]
  · unfold handle_delete_request
    rw [if_neg (by simp [h1]), if_pos h2, hsp]

/-- Witness for the amended C8: the ban route at a concrete envelope with
an `Authorization` header carries the token and the pool into the
invocation. -/
theorem C8_arguments_per_route_witness :
    handle_post_request
        ⟨"/block_list", "\x7b\"public_key\":\"pk1\"\x7d", "POST", ""⟩
        ⟨"/block_list", none⟩ (some "tok") ⟨3⟩ =
      .ok (.ban "pk1" (some "tok") ⟨3⟩) :=
  (C8_arguments_per_route.2.2.2.2.2.1 _ none (some "tok") ⟨3⟩ "pk1" (by rfl)).1

/-! ## Round-trip lemmas: numerals -/

theorem skipWs_cons_not_ws (c : Char) (cs : List Char) (h : isWs c = false) :
    skipWs (c :: cs) = c :: cs := by
  simp [skipWs, h]

theorem digitChar_isDigit (d : Nat) (h : d < 10) : (Char.ofNat (48 + d)).isDigit = true := by
  interval_cases d <;> decide

theorem digitChar_toNat (d : Nat) (h : d < 10) : (Char.ofNat (48 + d)).toNat = 48 + d := by
  interval_cases d <;> decide

theorem digitChar_eq_zero_iff (d : Nat) (h : d < 10) : Char.ofNat (48 + d) = '0' ↔ d = 0 := by
  interval_cases d <;> decide

theorem isDigit_facts (c : Char) (h : c.isDigit = true) :
    isWs c = false ∧ c ≠ 'n' ∧ c ≠ 't' ∧ c ≠ 'f' ∧ c ≠ '"' ∧ c ≠ '[' ∧ c ≠ lbrace
    ∧ c ≠ '-' ∧ c ≠ ']' ∧ c ≠ ',' ∧ c ≠ rbrace ∧ c ≠ ':' := by
  have hsp : c ≠ ' ' := fun heq => by subst heq; exact absurd h (by decide)
  have hta : c ≠ '\t' := fun heq => by subst heq; exact absurd h (by decide)
  have hnl : c ≠ '\n' := fun heq => by subst heq; exact absurd h (by decide)
  have hcr : c ≠ '\r' := fun heq => by subst heq; exact absurd h (by decide)
  refine ⟨by simp [isWs, hsp, hta, hnl, hcr], ?_, ?_, ?_, ?_, ?_, ?_, ?_, ?_, ?_, ?_, ?_⟩ <;>
    exact fun heq => by subst heq; exact absurd h (by decide)

theorem digitsToNat_append_singleton (ds : List Char) (c : Char) :
    digitsToNat (ds ++ [c]) = 10 * digitsToNat ds + (c.toNat - 48) := by
  simp [digitsToNat, List.foldl_append]

theorem natToCharsAux_spec (fuel : Nat) :
    ∀ n, n < 10 ^ (fuel + 1) →
      (∃ d ds, natToCharsAux (fuel + 1) n = d :: ds)
      ∧ (natToCharsAux (fuel + 1) n).all Char.isDigit = true
      ∧ digitsToNat (natToCharsAux (fuel + 1) n) = n
      ∧ (n ≠ 0 → ∀ ds, natToCharsAux (fuel + 1) n ≠ '0' :: ds) := by
  induction fuel with
  | zero =>
    intro n h
    have h10 : n < 10 := by simpa using h
    have hout : natToCharsAux 1 n = [Char.ofNat (48 + n)] := by
      simp [natToCharsAux, h10]
    refine ⟨⟨_, _, hout⟩, ?_, ?_, ?_⟩
    · simp [hout, digitChar_isDigit n h10]
    · have := digitChar_toNat n h10
      simp [hout, digitsToNat, this]
    · intro hn ds heq
      rw [hout] at heq
      have : Char.ofNat (48 + n) = '0' := by
        injection heq with h1 h2
      exact hn ((digitChar_eq_zero_iff n h10).mp this)
  | succ fuel ih =>
    intro n h
    by_cases h10 : n < 10
    · have hout : natToCharsAux (fuel + 2) n = [Char.ofNat (48 + n)] := by
        simp [natToCharsAux, h10]
      refine ⟨⟨_, _, hout⟩, ?_, ?_, ?_⟩
      · simp [hout, digitChar_isDigit n h10]
      · have := digitChar_toNat n h10
        simp [hout, digitsToNat, this]
      · intro hn ds heq
        rw [hout] at heq
        have : Char.ofNat (48 + n) = '0' := by
          injection heq with h1 h2
        exact hn ((digitChar_eq_zero_iff n h10).mp this)
    · have hdiv : n / 10 < 10 ^ (fuel + 1) := by
        rw [Nat.div_lt_iff_lt_mul (by norm_num)]
        calc n < 10 ^ (fuel + 2) := h
        _ = 10 ^ (fuel + 1) * 10 := by ring
      obtain ⟨⟨d, ds, hd⟩, hall, hval, hhead⟩ := ih (n / 10) hdiv
      have hmod : n % 10 < 10 := Nat.mod_lt _ (by norm_num)
      have hout : natToCharsAux (fuel + 2) n =
          natToCharsAux (fuel + 1) (n / 10) ++ [Char.ofNat (48 + n % 10)] := by
        simp [natToCharsAux, h10]
      have hdivpos : n / 10 ≠ 0 := by omega
      refine ⟨⟨d, ds ++ [Char.ofNat (48 + n % 10)], by rw [hout, hd]; rfl⟩, ?_, ?_, ?_⟩
      · rw [hout]
        simp [List.all_append, hall, digitChar_isDigit _ hmod]
      · rw [hout, digitsToNat_append_singleton, hval, digitChar_toNat _ hmod]
        omega
      · intro hn ds' heq
        have hd0 : d ≠ '0' := by
          intro hd0
          exact hhead hdivpos ds (by rw [hd, hd0])
        rw [hout, hd] at heq
        have : d = '0' := by
          injection heq
        exact hd0 this

theorem natToChars_spec (n : Nat) :
    (∃ d ds, natToChars n = d :: ds)
    ∧ (natToChars n).all Char.isDigit = true
    ∧ digitsToNat (natToChars n) = n
    ∧ (n ≠ 0 → ∀ ds, natToChars n ≠ '0' :: ds) := by
  have h1 : n < 10 ^ n := Nat.lt_pow_self (by norm_num) n
  have h2 : (10 : Nat) ^ n ≤ 10 ^ (n + 1) := Nat.pow_le_pow_right (by norm_num) (Nat.le_succ n)
  exact natToCharsAux_spec n n (lt_of_lt_of_le h1 h2)

theorem takeDigits_append (ds rest : List Char) (hall : ds.all Char.isDigit = true)
    (hrest : headNotDigit rest) : takeDigits (ds ++ rest) = (ds, rest) := by
  induction ds with
  | nil =>
    cases rest with
    | nil => rfl
    | cons c t =>
      simp only [headNotDigit] at hrest
      simp [takeDigits, hrest]
  | cons c t ih =>
    simp only [List.all_cons, Bool.and_eq_true] at hall
    simp [takeDigits, hall.1, ih hall.2]

theorem parseNatNum_natToChars (n : Nat) (rest : List Char) (hrest : headNotDigit rest) :
    parseNatNum (natToChars n ++ rest) = some (n, rest) := by
  obtain ⟨⟨d, ds, hd⟩, hall, hval, hhead⟩ := natToChars_spec n
  unfold parseNatNum
  rw [takeDigits_append _ _ hall hrest, hd]
  show (if d = '0' ∧ ds ≠ [] then none else some (digitsToNat (d :: ds), rest)) = some (n, rest)
  by_cases hn : n = 0
  · subst hn
    have h0 : natToChars 0 = ['0'] := rfl
    rw [h0] at hd
    injection hd with h1 h2
    subst h1
    subst h2
    rw [if_neg (by simp)]
    rfl
  · have hd0 : d ≠ '0' := fun h0 => hhead hn ds (by rw [hd, h0])
    rw [if_neg (by simp [hd0]), ← hd, hval]

theorem parseNumTok_encInt (n : Int) (rest : List Char) (hrest : headNotDigit rest) :
    parseNumTok (encInt n ++ rest) = some (n, rest) := by
  rcases lt_or_le n 0 with hneg | hpos
  · have henc : encInt n = '-' :: natToChars n.natAbs := by
      simp [encInt, hneg]
    rw [henc]
    show (if '-' = '-' then
            (parseNatNum (natToChars n.natAbs ++ rest)).map (fun p => (-(p.1 : Int), p.2))
          else (parseNatNum ('-' :: (natToChars n.natAbs ++ rest))).map
            (fun p => ((p.1 : Int), p.2))) = some (n, rest)
    rw [if_pos rfl, parseNatNum_natToChars _ _ hrest]
    show some ((-(n.natAbs : Int) : Int), rest) = some (n, rest)
    have hv : -(n.natAbs : Int) = n := by omega
    rw [hv]
  · have henc : encInt n = natToChars n.toNat := by
      simp [encInt, not_lt.mpr hpos]
    obtain ⟨⟨d, ds, hd⟩, hall, hval, hhead⟩ := natToChars_spec n.toNat
    have hdig : d.isDigit = true := by
      rw [hd] at hall
      simp only [List.all_cons, Bool.and_eq_true] at hall
      exact hall.1
    rw [henc, hd]
    show (if d = '-' then (parseNatNum (ds ++ rest)).map (fun p => (-(p.1 : Int), p.2))
          else (parseNatNum (d :: (ds ++ rest))).map (fun p => ((p.1 : Int), p.2)))
        = some (n, rest)
    rw [if_neg (isDigit_facts d hdig).2.2.2.2.2.2.2.1]
    have hform : (d :: (ds ++ rest)) = natToChars n.toNat ++ rest := by rw [hd]; rfl
    rw [hform, parseNatNum_natToChars _ _ hrest]
    show some (((n.toNat : Int) : Int), rest) = some (n, rest)
    rw [Int.toNat_of_nonneg hpos]

theorem parseStrBody_append (cs rest : List Char) (hok : strOkChars cs = true) :
    parseStrBody (cs ++ '"' :: rest) = some (cs, rest) := by
  induction cs with
  | nil => rfl
  | cons c t ih =>
    simp only [strOkChars, List.all_cons, Bool.and_eq_true, decide_eq_true_eq] at hok
    obtain ⟨⟨hq, hb⟩, hrest⟩ := hok
    show parseStrBody (c :: (t ++ '"' :: rest)) = some (c :: t, rest)
    unfold parseStrBody
    rw [if_neg hq, if_neg hb, ih (by simpa [strOkChars] using hrest)]
    rfl

theorem parseStrBody_strOk (cs : List Char) :
    ∀ s r, parseStrBody cs = some (s, r) → strOkChars s = true := by
  induction cs with
  | nil =>
    intro s r h
    exact Option.noConfusion h
  | cons c t ih =>
    intro s r h
    unfold parseStrBody at h
    by_cases hq : c = '"'
    · rw [if_pos hq] at h
      injection h with h1
      injection h1 with h2 h3
      subst h2
      rfl
    · rw [if_neg hq] at h
      by_cases hb : c = '\\'
      · rw [if_pos hb] at h
        exact Option.noConfusion h
      · rw [if_neg hb] at h
        cases hp : parseStrBody t with
        | none =>
          rw [hp] at h
          exact Option.noConfusion h
        | some p =>
          rw [hp] at h
          obtain ⟨s1, r1⟩ := p
          have h' : some (c :: s1, r1) = some (s, r) := h
          injection h' with h1
          injection h1 with h2 h3
          subst h2
          simp only [strOkChars, List.all_cons, Bool.and_eq_true, decide_eq_true_eq]
          exact ⟨⟨hq, hb⟩, by simpa [strOkChars] using ih s1 r1 hp⟩

/-! ## Round-trip lemmas: heads and parser reduction -/

theorem natToCharsAux_head (fuel : Nat) :
    ∀ n, n < 10 ^ (fuel + 1) →
      ∃ k ds, k < 10 ∧ natToCharsAux (fuel + 1) n = Char.ofNat (48 + k) :: ds := by
  induction fuel with
  | zero =>
    intro n h
    have h10 : n < 10 := by simpa using h
    exact ⟨n, [], h10, by simp [natToCharsAux, h10]⟩
  | succ fuel ih =>
    intro n h
    by_cases h10 : n < 10
    · exact ⟨n, [], h10, by simp [natToCharsAux, h10]⟩
    · have hdiv : n / 10 < 10 ^ (fuel + 1) := by
        rw [Nat.div_lt_iff_lt_mul (by norm_num)]
        calc n < 10 ^ (fuel + 2) := h
        _ = 10 ^ (fuel + 1) * 10 := by ring
      obtain ⟨k, ds, hk, hd⟩ := ih (n / 10) hdiv
      refine ⟨k, ds ++ [Char.ofNat (48 + n % 10)], hk, ?_⟩
      have hout : natToCharsAux (fuel + 2) n =
          natToCharsAux (fuel + 1) (n / 10) ++ [Char.ofNat (48 + n % 10)] := by
        simp [natToCharsAux, h10]
      rw [hout, hd]
      rfl

theorem natToChars_head (n : Nat) :
    ∃ k ds, k < 10 ∧ natToChars n = Char.ofNat (48 + k) :: ds := by
  have h1 : n < 10 ^ n := Nat.lt_pow_self (by norm_num) n
  have h2 : (10 : Nat) ^ n ≤ 10 ^ (n + 1) := Nat.pow_le_pow_right (by norm_num) (Nat.le_succ n)
  exact natToCharsAux_head n n (lt_of_lt_of_le h1 h2)

theorem parseF_val_digit_head (fuel k : Nat) (hk : k < 10) (X : List Char) :
    parseF (fuel + 1) .val (Char.ofNat (48 + k) :: X) =
      (parseNumTok (Char.ofNat (48 + k) :: X)).map (fun p => (PRes.v (.num p.1), p.2)) := by
  interval_cases k <;> rfl

theorem parseF_val_minus_head (fuel : Nat) (X : List Char) :
    parseF (fuel + 1) .val ('-' :: X) =
      (parseNumTok ('-' :: X)).map (fun p => (PRes.v (.num p.1), p.2)) := rfl

theorem parseF_val_lbracket (fuel : Nat) (c : Char) (X : List Char)
    (hws : isWs c = false) (hne : c ≠ ']') :
    parseF (fuel + 1) .val ('[' :: c :: X) =
      (match parseF fuel .arrElems (c :: X) with
       | some (.l xs, r) => some (.v (.arr xs), r)
       | _ => none) := by
  show (match skipWs (c :: X) with
        | [] => none
        | d :: ds =>
          if d = ']' then some (PRes.v (Json.arr JsonList.nil), ds)
          else
            match parseF fuel PMode.arrElems (d :: ds) with
            | some (PRes.l xs, r) => some (PRes.v (Json.arr xs), r)
            | _ => none) =
      (match parseF fuel PMode.arrElems (c :: X) with
       | some (PRes.l xs, r) => some (PRes.v (Json.arr xs), r)
       | _ => none)
  rw [skipWs_cons_not_ws _ _ hws]
  show (if c = ']' then some (PRes.v (Json.arr JsonList.nil), X)
        else
          match parseF fuel PMode.arrElems (c :: X) with
          | some (PRes.l xs, r) => some (PRes.v (Json.arr xs), r)
          | _ => none) =
      (match parseF fuel PMode.arrElems (c :: X) with
       | some (PRes.l xs, r) => some (PRes.v (Json.arr xs), r)
       | _ => none)
  rw [if_neg hne]

theorem parseF_val_lbrace (fuel : Nat) (X : List Char) :
    parseF (fuel + 1) .val (lbrace :: '"' :: X) =
      (match parseF fuel .objElems ('"' :: X) with
       | some (.o kvs, r) => some (.v (.obj kvs), r)
       | _ => none) := rfl

theorem encV_head (v : Json) : ∃ c cs, encV v = c :: cs ∧ isWs c = false ∧ c ≠ ']' := by
  cases v with
  | null => exact ⟨'n', _, rfl, by decide, by decide⟩
  | bool b =>
    cases b with
    | true => exact ⟨'t', _, rfl, by decide, by decide⟩
    | false => exact ⟨'f', _, rfl, by decide, by decide⟩
  | num n =>
    rcases lt_or_le n 0 with hneg | hpos
    · refine ⟨'-', natToChars n.natAbs, ?_, by decide, by decide⟩
      show encInt n = _
      simp [encInt, hneg]
    · obtain ⟨k, ds, hk, hd⟩ := natToChars_head n.toNat
      have hdig := digitChar_isDigit k hk
      have hf := isDigit_facts _ hdig
      refine ⟨Char.ofNat (48 + k), ds, ?_, hf.1, hf.2.2.2.2.2.2.2.2.1⟩
      show encInt n = _
      rw [show encInt n = natToChars n.toNat by simp [encInt, not_lt.mpr hpos], hd]
  | str s => exact ⟨'"', _, rfl, by decide, by decide⟩
  | arr xs => exact ⟨'[', _, rfl, by decide, by decide⟩
  | obj kvs => exact ⟨lbrace, _, rfl, by decide, by decide⟩

theorem encInt_ne_nil (n : Int) : encInt n ≠ [] := by
  unfold encInt
  obtain ⟨k, ds, hk, hd⟩ := natToChars_head n.toNat
  split
  · simp
  · rw [hd]
    simp

/-! ## Round-trip lemmas: fuel accounting -/

theorem jsizeV_pos (v : Json) : 1 ≤ jsizeV v := by
  cases v <;> simp [jsizeV]

mutual
theorem jsizeV_le_length (v : Json) : jsizeV v ≤ (encV v).length := by
  cases v with
  | null => decide
  | bool b => cases b <;> decide
  | num n =>
    have h := List.length_pos.mpr (encInt_ne_nil n)
    show jsizeV (.num n) ≤ (encInt n).length
    simp only [jsizeV]
    omega
  | str s =>
    show 1 ≤ ('"' :: s.data ++ ['"']).length
    simp
  | arr xs =>
    have h := jsizeL_le_length xs
    show jsizeL xs + 1 ≤ ('[' :: encL xs ++ [']']).length
    simp at h ⊢
    omega
  | obj kvs =>
    have h := jsizeO_le_length kvs
    show jsizeO kvs + 1 ≤ (lbrace :: encO kvs ++ [rbrace]).length
    simp at h ⊢
    omega

theorem jsizeL_le_length (xs : JsonList) : jsizeL xs ≤ (encL xs).length + 1 := by
  cases xs with
  | nil => decide
  | cons v tl =>
    cases tl with
    | nil =>
      have h := jsizeV_le_length v
      show jsizeV v + jsizeL JsonList.nil + 1 ≤ (encV v).length + 1
      simp only [jsizeL]
      omega
    | cons w tl2 =>
      have h1 := jsizeV_le_length v
      have h2 := jsizeL_le_length (JsonList.cons w tl2)
      show jsizeV v + jsizeL (JsonList.cons w tl2) + 1 ≤
        (encV v ++ ',' :: encL (JsonList.cons w tl2)).length + 1
      simp at h2 ⊢
      omega

theorem jsizeO_le_length (kvs : JsonObj) : jsizeO kvs ≤ (encO kvs).length + 1 := by
  cases kvs with
  | nil => decide
  | cons k v tl =>
    cases tl with
    | nil =>
      have h := jsizeV_le_length v
      show jsizeV v + jsizeO JsonObj.nil + 1 ≤
        ('"' :: k.data ++ '"' :: ':' :: encV v).length + 1
      simp only [jsizeO]
      simp
      omega
    | cons k2 v2 tl2 =>
      have h1 := jsizeV_le_length v
      have h2 := jsizeO_le_length (JsonObj.cons k2 v2 tl2)
      show jsizeV v + jsizeO (JsonObj.cons k2 v2 tl2) + 1 ≤
        ('"' :: k.data ++ '"' :: ':' :: encV v ++ ',' :: encO (JsonObj.cons k2 v2 tl2)).length + 1
      simp at h2 ⊢
      omega
end

theorem headNotDigit_cons (c : Char) (h : c.isDigit = false) (X : List Char) :
    headNotDigit (c :: X) := h

theorem parseF_objElems_key (fuel : Nat) (kd : List Char) (hk : strOkChars kd = true)
    (Y : List Char) :
    parseF (fuel + 1) .objElems ('"' :: (kd ++ '"' :: Y)) =
      (match skipWs Y with
       | [] => none
       | d :: ds =>
         if d = ':' then
           match parseF fuel PMode.val ds with
           | some (PRes.v j, r') =>
             (match skipWs r' with
              | [] => none
              | e :: es =>
                if e = ',' then
                  match parseF fuel PMode.objElems es with
                  | some (PRes.o tl, r'') => some (PRes.o (JsonObj.cons ⟨kd⟩ j tl), r'')
                  | _ => none
                else if e = rbrace then some (PRes.o (JsonObj.cons ⟨kd⟩ j JsonObj.nil), es)
                else none)
           | _ => none
         else none) := by
  show (match parseStrBody (kd ++ '"' :: Y) with
        | some (k, r) =>
          (match skipWs r with
           | [] => none
           | d :: ds =>
             if d = ':' then
               match parseF fuel PMode.val ds with
               | some (PRes.v j, r') =>
                 (match skipWs r' with
                  | [] => none
                  | e :: es =>
                    if e = ',' then
                      match parseF fuel PMode.objElems es with
                      | some (PRes.o tl, r'') => some (PRes.o (JsonObj.cons ⟨k⟩ j tl), r'')
                      | _ => none
                    else if e = rbrace then some (PRes.o (JsonObj.cons ⟨k⟩ j JsonObj.nil), es)
                    else none)
               | _ => none
             else none)
        | none => none) = _
  rw [parseStrBody_append kd Y hk]

mutual
theorem parse_encV (v : Json) (fuel : Nat) (hfuel : jsizeV v ≤ fuel) (hwf : wfV v = true)
    (rest : List Char) (hrest : headNotDigit rest) :
    parseF fuel .val (encV v ++ rest) = some (.v v, rest) := by
  cases fuel with
  | zero => exact absurd hfuel (by have := jsizeV_pos v; omega)
  | succ fuel =>
    cases v with
    | null => rfl
    | bool b => cases b <;> rfl
    | num n =>
      rcases lt_or_le n 0 with hneg | hpos
      · have henc : encInt n = '-' :: natToChars n.natAbs := by simp [encInt, hneg]
        have hassoc : encV (.num n) ++ rest = '-' :: (natToChars n.natAbs ++ rest) := by
          show encInt n ++ rest = _
          rw [henc]
          rfl
        rw [hassoc, parseF_val_minus_head]
        have hback : '-' :: (natToChars n.natAbs ++ rest) = encInt n ++ rest := by
          rw [henc]
          rfl
        rw [hback, parseNumTok_encInt n rest hrest]
        rfl
      · obtain ⟨k, ds, hk, hd⟩ := natToChars_head n.toNat
        have henc : encInt n = natToChars n.toNat := by simp [encInt, not_lt.mpr hpos]
        have hassoc : encV (.num n) ++ rest = Char.ofNat (48 + k) :: (ds ++ rest) := by
          show encInt n ++ rest = _
          rw [henc, hd]
          rfl
        rw [hassoc, parseF_val_digit_head fuel k hk]
        have hback : Char.ofNat (48 + k) :: (ds ++ rest) = encInt n ++ rest := by
          rw [henc, hd]
          rfl
        rw [hback, parseNumTok_encInt n rest hrest]
        rfl
    | str s =>
      have hassoc : encV (.str s) ++ rest = '"' :: (s.data ++ '"' :: rest) := by
        show ('"' :: s.data ++ ['"']) ++ rest = _
        simp
      rw [hassoc]
      show (parseStrBody (s.data ++ '"' :: rest)).map
          (fun p => (PRes.v (Json.str ⟨p.1⟩), p.2)) = some (PRes.v (Json.str s), rest)
      rw [parseStrBody_append s.data rest hwf]
      rfl
    | arr xs =>
      cases xs with
      | nil => rfl
      | cons v tl =>
        obtain ⟨c, cs, hc, hws, hne⟩ := encV_head v
        have hT : ∃ T, encL (JsonList.cons v tl) = encV v ++ T := by
          cases tl with
          | nil => exact ⟨[], by show encV v = encV v ++ []; simp⟩
          | cons w tl2 => exact ⟨',' :: encL (JsonList.cons w tl2), rfl⟩
        obtain ⟨T, hTeq⟩ := hT
        have hassoc : encV (.arr (JsonList.cons v tl)) ++ rest =
            '[' :: c :: (cs ++ (T ++ ']' :: rest)) := by
          show ('[' :: encL (JsonList.cons v tl) ++ [']']) ++ rest = _
          rw [hTeq, hc]
          simp
        rw [hassoc, parseF_val_lbracket fuel c _ hws hne]
        have hback : c :: (cs ++ (T ++ ']' :: rest)) =
            encL (JsonList.cons v tl) ++ ']' :: rest := by
          rw [hTeq, hc]
          simp
        rw [hback, parse_encL v tl fuel
          (by simp only [jsizeV] at hfuel; omega)
          (by simpa [wfV] using hwf) rest]
    | obj kvs =>
      cases kvs with
      | nil => rfl
      | cons k v tl =>
        have hS : ∃ S, encO (JsonObj.cons k v tl) = '"' :: S := by
          cases tl with
          | nil => exact ⟨_, rfl⟩
          | cons k2 v2 tl2 => exact ⟨_, rfl⟩
        obtain ⟨S, hSeq⟩ := hS
        have hassoc : encV (.obj (JsonObj.cons k v tl)) ++ rest =
            lbrace :: '"' :: (S ++ (rbrace :: rest)) := by
          show (lbrace :: encO (JsonObj.cons k v tl) ++ [rbrace]) ++ rest = _
          rw [hSeq]
          simp
        rw [hassoc, parseF_val_lbrace fuel _]
        have hback : '"' :: (S ++ rbrace :: rest) =
            encO (JsonObj.cons k v tl) ++ rbrace :: rest := by
          rw [hSeq]
          simp
        rw [hback, parse_encO k v tl fuel
          (by simp only [jsizeV] at hfuel; omega)
          (by simpa [wfV] using hwf) rest]
termination_by sizeOf v

theorem parse_encL (v : Json) (tl : JsonList) (fuel : Nat)
    (hfuel : jsizeL (.cons v tl) ≤ fuel) (hwf : wfL (.cons v tl) = true) (rest : List Char) :
    parseF fuel .arrElems (encL (.cons v tl) ++ ']' :: rest) =
      some (.l (.cons v tl), rest) := by
  have hwf2 := hwf
  simp only [wfL, Bool.and_eq_true] at hwf2
  cases fuel with
  | zero =>
    simp only [jsizeL] at hfuel
    omega
  | succ fuel =>
    cases tl with
    | nil =>
      show (match parseF fuel PMode.val (encL (JsonList.cons v JsonList.nil) ++ ']' :: rest) with
            | some (PRes.v j, r) =>
              (match skipWs r with
               | [] => none
               | d :: ds =>
                 if d = ',' then
                   match parseF fuel PMode.arrElems ds with
                   | some (PRes.l tl, r') => some (PRes.l (JsonList.cons j tl), r')
                   | _ => none
                 else if d = ']' then some (PRes.l (JsonList.cons j JsonList.nil), ds)
                 else none)
            | _ => none) = some (PRes.l (JsonList.cons v JsonList.nil), rest)
      rw [show encL (JsonList.cons v JsonList.nil) ++ ']' :: rest = encV v ++ ']' :: rest
            from rfl,
          parse_encV v fuel (by simp only [jsizeL] at hfuel; omega) hwf2.1 (']' :: rest)
            (headNotDigit_cons ']' (by decide) _)]
      rfl
    | cons w tl2 =>
      show (match parseF fuel PMode.val (encL (JsonList.cons v (JsonList.cons w tl2))
              ++ ']' :: rest) with
            | some (PRes.v j, r) =>
              (match skipWs r with
               | [] => none
               | d :: ds =>
                 if d = ',' then
                   match parseF fuel PMode.arrElems ds with
                   | some (PRes.l tl, r') => some (PRes.l (JsonList.cons j tl), r')
                   | _ => none
                 else if d = ']' then some (PRes.l (JsonList.cons j JsonList.nil), ds)
                 else none)
            | _ => none) = some (PRes.l (JsonList.cons v (JsonList.cons w tl2)), rest)
      rw [show encL (JsonList.cons v (JsonList.cons w tl2)) ++ ']' :: rest =
            encV v ++ (',' :: (encL (JsonList.cons w tl2) ++ ']' :: rest)) by
          show (encV v ++ ',' :: encL (JsonList.cons w tl2)) ++ ']' :: rest = _
          simp,
        parse_encV v fuel (by simp only [jsizeL] at hfuel; omega) hwf2.1 _
          (headNotDigit_cons ',' (by decide) _)]
      show (match parseF fuel PMode.arrElems (encL (JsonList.cons w tl2) ++ ']' :: rest) with
            | some (PRes.l tl, r') => some (PRes.l (JsonList.cons v tl), r')
            | _ => none) = some (PRes.l (JsonList.cons v (JsonList.cons w tl2)), rest)
      rw [parse_encL w tl2 fuel (by simp only [jsizeL] at hfuel ⊢; omega) hwf2.2 rest]
termination_by sizeOf (JsonList.cons v tl)

theorem parse_encO (k : String) (v : Json) (tl : JsonObj) (fuel : Nat)
    (hfuel : jsizeO (.cons k v tl) ≤ fuel) (hwf : wfO (.cons k v tl) = true)
    (rest : List Char) :
    parseF fuel .objElems (encO (.cons k v tl) ++ rbrace :: rest) =
      some (.o (.cons k v tl), rest) := by
  have hwf2 := hwf
  simp only [wfO, Bool.and_eq_true] at hwf2
  cases fuel with
  | zero =>
    simp only [jsizeO] at hfuel
    omega
  | succ fuel =>
    cases tl with
    | nil =>
      rw [show encO (JsonObj.cons k v JsonObj.nil) ++ rbrace :: rest =
            '"' :: (k.data ++ '"' :: (':' :: (encV v ++ rbrace :: rest))) by
          show ('"' :: k.data ++ '"' :: ':' :: encV v) ++ rbrace :: rest = _
          simp,
        parseF_objElems_key fuel k.data hwf2.1.1 _]
      show (match parseF fuel PMode.val (encV v ++ rbrace :: rest) with
            | some (PRes.v j, r') =>
              (match skipWs r' with
               | [] => none
               | e :: es =>
                 if e = ',' then
                   match parseF fuel PMode.objElems es with
                   | some (PRes.o tl, r'') => some (PRes.o (JsonObj.cons k j tl), r'')
                   | _ => none
                 else if e = rbrace then some (PRes.o (JsonObj.cons k j JsonObj.nil), es)
                 else none)
            | _ => none) = some (PRes.o (JsonObj.cons k v JsonObj.nil), rest)
      rw [parse_encV v fuel (by simp only [jsizeO] at hfuel; omega) hwf2.1.2 _
        (headNotDigit_cons rbrace (by decide) _)]
      show (if rbrace = ',' then
              match parseF fuel PMode.objElems rest with
              | some (PRes.o tl, r'') => some (PRes.o (JsonObj.cons k v tl), r'')
              | _ => none
            else if rbrace = rbrace then some (PRes.o (JsonObj.cons k v JsonObj.nil), rest)
            else none) = some (PRes.o (JsonObj.cons k v JsonObj.nil), rest)
      rw [if_neg (by decide), if_pos rfl]
    | cons k2 v2 tl2 =>
      rw [show encO (JsonObj.cons k v (JsonObj.cons k2 v2 tl2)) ++ rbrace :: rest =
            '"' :: (k.data ++ '"' :: (':' :: (encV v ++
              (',' :: (encO (JsonObj.cons k2 v2 tl2) ++ rbrace :: rest))))) by
          show ('"' :: k.data ++ '"' :: ':' :: encV v ++
              ',' :: encO (JsonObj.cons k2 v2 tl2)) ++ rbrace :: rest = _
          simp,
        parseF_objElems_key fuel k.data hwf2.1.1 _]
      show (match parseF fuel PMode.val (encV v ++
              (',' :: (encO (JsonObj.cons k2 v2 tl2) ++ rbrace :: rest))) with
            | some (PRes.v j, r') =>
              (match skipWs r' with
               | [] => none
               | e :: es =>
                 if e = ',' then
                   match parseF fuel PMode.objElems es with
                   | some (PRes.o tl, r'') => some (PRes.o (JsonObj.cons k j tl), r'')
                   | _ => none
                 else if e = rbrace then some (PRes.o (JsonObj.cons k j JsonObj.nil), es)
                 else none)
            | _ => none) = some (PRes.o (JsonObj.cons k v (JsonObj.cons k2 v2 tl2)), rest)
      rw [parse_encV v fuel (by simp only [jsizeO] at hfuel; omega) hwf2.1.2 _
        (headNotDigit_cons ',' (by decide) _)]
      show (match parseF fuel PMode.objElems (encO (JsonObj.cons k2 v2 tl2)
              ++ rbrace :: rest) with
            | some (PRes.o tl, r'') => some (PRes.o (JsonObj.cons k v tl), r'')
            | _ => none) = some (PRes.o (JsonObj.cons k v (JsonObj.cons k2 v2 tl2)), rest)
      rw [parse_encO k2 v2 tl2 fuel (by simp only [jsizeO] at hfuel ⊢; omega) hwf2.2 rest]
termination_by sizeOf (JsonObj.cons k v tl)
end

/-! ## Round-trip lemmas: the parser only produces escape-free strings -/

theorem parseF_wf (fuel : Nat) :
    ∀ mode cs res r, parseF fuel mode cs = some (res, r) → wfP res = true := by
  induction fuel with
  | zero =>
    intro mode cs res r h
    exact Option.noConfusion h
  | succ fuel ih =>
    intro mode cs res r h
    cases mode with
    | val =>
      simp only [parseF] at h
      split at h
      · exact Option.noConfusion h
      · rename_i c cs' heq
        split_ifs at h with h1 h2 h3 h4 h5 h6 h7
        · rw [Option.map_eq_some'] at h
          obtain ⟨a, ha, hb⟩ := h
          injection hb with hb1 hb2
          subst hb1
          rfl
        · rw [Option.map_eq_some'] at h
          obtain ⟨a, ha, hb⟩ := h
          injection hb with hb1 hb2
          subst hb1
          rfl
        · rw [Option.map_eq_some'] at h
          obtain ⟨a, ha, hb⟩ := h
          injection hb with hb1 hb2
          subst hb1
          rfl
        · rw [Option.map_eq_some'] at h
          obtain ⟨a, ha, hb⟩ := h
          injection hb with hb1 hb2
          subst hb1
          exact parseStrBody_strOk cs' a.1 a.2 ha
        · split at h
          · exact Option.noConfusion h
          · rename_i d ds heq2
            split_ifs at h with hd
            · have h2x : some (PRes.v (Json.arr JsonList.nil), ds) = some (res, r) := h
              injection h2x with h3
              injection h3 with hb1 hb2
              subst hb1
              rfl
            · split at h
              · rename_i xs qr heq3
                have h2x : some (PRes.v (Json.arr xs), qr) = some (res, r) := h
                injection h2x with h3
                injection h3 with hb1 hb2
                subst hb1
                have hxs := ih .arrElems (d :: ds) (.l xs) qr heq3
                simp only [wfP] at hxs ⊢
                simpa [wfV] using hxs
              · exact Option.noConfusion h
        · split at h
          · exact Option.noConfusion h
          · rename_i d ds heq2
            split_ifs at h with hd
            · have h2x : some (PRes.v (Json.obj JsonObj.nil), ds) = some (res, r) := h
              injection h2x with h3
              injection h3 with hb1 hb2
              subst hb1
              rfl
            · split at h
              · rename_i kvs qr heq3
                have h2x : some (PRes.v (Json.obj kvs), qr) = some (res, r) := h
                injection h2x with h3
                injection h3 with hb1 hb2
                subst hb1
                have hkvs := ih .objElems (d :: ds) (.o kvs) qr heq3
                simp only [wfP] at hkvs ⊢
                simpa [wfV] using hkvs
              · exact Option.noConfusion h
        · rw [Option.map_eq_some'] at h
          obtain ⟨a, ha, hb⟩ := h
          injection hb with hb1 hb2
          subst hb1
          rfl
    | arrElems =>
      simp only [parseF] at h
      split at h
      · rename_i j qr heq1
        have hj := ih .val cs (.v j) qr heq1
        split at h
        · exact Option.noConfusion h
        · rename_i d ds heq2
          split_ifs at h with hd1 hd2
          · split at h
            · rename_i tl q2r heq3
              have htl := ih .arrElems ds (.l tl) q2r heq3
              have h2x : some (PRes.l (JsonList.cons j tl), q2r) = some (res, r) := h
              injection h2x with h3
              injection h3 with hb1 hb2
              subst hb1
              simp only [wfP] at hj htl ⊢
              simp [wfL, hj, htl]
            · exact Option.noConfusion h
          · have h2x : some (PRes.l (JsonList.cons j JsonList.nil), ds) = some (res, r) := h
            injection h2x with h3
            injection h3 with hb1 hb2
            subst hb1
            simp only [wfP] at hj ⊢
            simp [wfL, hj]
      · exact Option.noConfusion h
    | objElems =>
      simp only [parseF] at h
      split at h
      · exact Option.noConfusion h
      · rename_i c cs' heq
        split_ifs at h with hq
        · split at h
          · rename_i kd r1 heq2
            have hkd := parseStrBody_strOk cs' kd r1 heq2
            split at h
            · exact Option.noConfusion h
            · rename_i d ds heq3
              split_ifs at h with hd
              · split at h
                · rename_i j qr heq4
                  have hj := ih .val ds (.v j) qr heq4
                  split at h
                  · exact Option.noConfusion h
                  · rename_i e es heq5
                    split_ifs at h with he1 he2
                    · split at h
                      · rename_i tl q2r heq6
                        have htl := ih .objElems es (.o tl) q2r heq6
                        have h2x : some (PRes.o (JsonObj.cons ⟨kd⟩ j tl), q2r) =
                            some (res, r) := h
                        injection h2x with h3
                        injection h3 with hb1 hb2
                        subst hb1
                        simp only [wfP] at hj htl ⊢
                        simp [wfO, hj, htl, strOk, hkd]
                      · exact Option.noConfusion h
                    · have h2x : some (PRes.o (JsonObj.cons ⟨kd⟩ j JsonObj.nil), es) =
                          some (res, r) := h
                      injection h2x with h3
                      injection h3 with hb1 hb2
                      subst hb1
                      simp only [wfP] at hj ⊢
                      simp [wfO, hj, strOk, hkd]
                · exact Option.noConfusion h
          · exact Option.noConfusion h

theorem parseJson_wf (s : String) (j : Json) (h : parseJson s = some j) : wfV j = true := by
  unfold parseJson at h
  cases hp : parseF (2 * s.length + 2) .val s.data with
  | none =>
    rw [hp] at h
    exact Option.noConfusion h
  | some p =>
    rw [hp] at h
    obtain ⟨res, r⟩ := p
    cases res with
    | v j2 =>
      have h2 : (if skipWs r = [] then some j2 else none) = some j := h
      split_ifs at h2 with hr
      injection h2 with h3
      subst h3
      simpa [wfP] using parseF_wf (2 * s.length + 2) .val s.data (.v j2) r hp
    | l xs => exact Option.noConfusion h
    | o kvs => exact Option.noConfusion h

theorem parseJson_encodeJson (v : Json) (hwf : wfV v = true) :
    parseJson (encodeJson v) = some v := by
  have hfuel : jsizeV v ≤ 2 * (encV v).length + 2 := by
    have := jsizeV_le_length v
    omega
  have hp := parse_encV v (2 * (encV v).length + 2) hfuel hwf [] trivial
  rw [List.append_nil] at hp
  show (match parseF (2 * (encV v).length + 2) PMode.val (encV v) with
        | some (PRes.v j, rest) => if skipWs rest = [] then some j else none
        | _ => none) = some v
  rw [hp]
  rfl

/-! ## Round-trip of the typed decoders -/

theorem decodeQOFields_bounds (kvs : JsonObj) :
    ∀ lim fsi qo,
      (∀ l, lim = some (some l) → l < 65536) →
      (∀ f, fsi = some (some f) → -(2 ^ 63) ≤ f ∧ f < 2 ^ 63) →
      decodeQOFields kvs lim fsi = some qo →
      (∀ l, qo.limit = some l → l < 65536) ∧
      (∀ f, qo.from_server_id = some f → -(2 ^ 63) ≤ f ∧ f < 2 ^ 63) := by
  cases kvs with
  | nil =>
    intro lim fsi qo hl hf h
    have h2 : some (⟨lim.getD none, fsi.getD none⟩ : QueryOptions) = some qo := h
    injection h2 with h3
    subst h3
    constructor
    · intro l hl2
      cases lim with
      | none => exact absurd hl2 (by simp)
      | some o =>
        refine hl l ?_
        simp only [Option.getD] at hl2
        rw [hl2]
    · intro f hf2
      cases fsi with
      | none => exact absurd hf2 (by simp)
      | some o =>
        refine hf f ?_
        simp only [Option.getD] at hf2
        rw [hf2]
  | cons k v tl =>
    intro lim fsi qo hl hf h
    simp only [decodeQOFields] at h
    split_ifs at h with h1 h2
    · cases lim with
      | some o => exact Option.noConfusion h
      | none =>
        cases v with
        | null =>
          exact decodeQOFields_bounds tl (some none) fsi qo
            (fun l hx => by exact absurd hx (by simp)) hf h
        | num n =>
          have h2x : (if 0 ≤ n ∧ n < 65536 then
              decodeQOFields tl (some (some n.toNat)) fsi else none) = some qo := h
          split_ifs at h2x with hr
          exact decodeQOFields_bounds tl (some (some n.toNat)) fsi qo
            (fun l hx => by
              have hnl : n.toNat = l := by
                injection hx with hy
                injection hy
              omega) hf h2x
        | bool b => exact Option.noConfusion h
        | str s2 => exact Option.noConfusion h
        | arr xs => exact Option.noConfusion h
        | obj kvs2 => exact Option.noConfusion h
    · cases fsi with
      | some o => exact Option.noConfusion h
      | none =>
        cases v with
        | null =>
          exact decodeQOFields_bounds tl lim (some none) qo hl
            (fun f hx => by exact absurd hx (by simp)) h
        | num n =>
          have h2x : (if -(2 ^ 63) ≤ n ∧ n < 2 ^ 63 then
              decodeQOFields tl lim (some (some n)) else none) = some qo := h
          split_ifs at h2x with hr
          exact decodeQOFields_bounds tl lim (some (some n)) qo hl
            (fun f hx => by
              have hnf : n = f := by
                injection hx with hy
                injection hy
              omega) h2x
        | bool b => exact Option.noConfusion h
        | str s2 => exact Option.noConfusion h
        | arr xs => exact Option.noConfusion h
        | obj kvs2 => exact Option.noConfusion h
    · exact decodeQOFields_bounds tl lim fsi qo hl hf h
termination_by sizeOf kvs

theorem wfV_qoToJson (qo : QueryOptions) : wfV (qoToJson qo) = true := by
  obtain ⟨lim, fsi⟩ := qo
  cases lim <;> cases fsi <;> rfl

set_option maxRecDepth 4000 in
theorem decodeQueryOptions_qoToJson (qo : QueryOptions)
    (hl : ∀ l, qo.limit = some l → l < 65536)
    (hf : ∀ f, qo.from_server_id = some f → -(2 ^ 63) ≤ f ∧ f < 2 ^ 63) :
    decodeQueryOptions (qoToJson qo) = some qo := by
  obtain ⟨lim, fsi⟩ := qo
  cases lim with
  | none =>
    cases fsi with
    | none => rfl
    | some f =>
      have hb := hf f rfl
      show decodeQOFields (.cons "from_server_id" (.num f) .nil) none none =
        some ⟨none, some f⟩
      have step : decodeQOFields (.cons "from_server_id" (.num f) .nil) none none =
          if -(2 ^ 63) ≤ f ∧ f < 2 ^ 63 then
            decodeQOFields .nil none (some (some f))
          else none := by
        unfold decodeQOFields
        rw [if_neg (by decide : ¬("from_server_id" = "limit")), if_pos rfl]
        rfl
      rw [step, if_pos hb]
      rfl
  | some l =>
    have hbl : (0 : Int) ≤ (l : Int) ∧ (l : Int) < 65536 := by
      have := hl l rfl
      omega
    cases fsi with
    | none =>
      show decodeQOFields (.cons "limit" (.num (l : Int)) .nil) none none =
        some ⟨some l, none⟩
      have step : decodeQOFields (.cons "limit" (.num (l : Int)) .nil) none none =
          if (0 : Int) ≤ (l : Int) ∧ (l : Int) < 65536 then
            decodeQOFields .nil (some (some (l : Int).toNat)) none
          else none := by
        unfold decodeQOFields
        rw [if_pos rfl]
        rfl
      rw [step, if_pos hbl]
      show some (⟨some (l : Int).toNat, none⟩ : QueryOptions) = some ⟨some l, none⟩
      simp
    | some f =>
      have hb := hf f rfl
      show decodeQOFields
          (.cons "limit" (.num (l : Int)) (.cons "from_server_id" (.num f) .nil)) none none =
        some ⟨some l, some f⟩
      have step : decodeQOFields
          (.cons "limit" (.num (l : Int)) (.cons "from_server_id" (.num f) .nil)) none none =
          if (0 : Int) ≤ (l : Int) ∧ (l : Int) < 65536 then
            decodeQOFields (.cons "from_server_id" (.num f) .nil)
              (some (some (l : Int).toNat)) none
          else none := by
        unfold decodeQOFields
        rw [if_pos rfl]
        rfl
      rw [step, if_pos hbl]
      have step2 : decodeQOFields (.cons "from_server_id" (.num f) .nil)
          (some (some (l : Int).toNat)) none =
          if -(2 ^ 63) ≤ f ∧ f < 2 ^ 63 then
            decodeQOFields .nil (some (some (l : Int).toNat)) (some (some f))
          else none := by
        unfold decodeQOFields
        rw [if_neg (by decide : ¬("from_server_id" = "limit")), if_pos rfl]
        rfl
      rw [step2, if_pos hb]
      show some (⟨some (l : Int).toNat, some f⟩ : QueryOptions) = some ⟨some l, some f⟩
      simp

theorem decodeStrField_strOk (kvs : JsonObj) :
    ∀ field acc s, wfO kvs = true → (∀ t, acc = some t → strOk t = true) →
      decodeStrField field kvs acc = some s → strOk s = true := by
  cases kvs with
  | nil =>
    intro field acc s hwf hacc h
    exact hacc s h
  | cons k v tl =>
    intro field acc s hwf hacc h
    simp only [wfO, Bool.and_eq_true] at hwf
    simp only [decodeStrField] at h
    split_ifs at h with h1
    · cases acc with
      | some t => exact Option.noConfusion h
      | none =>
        cases v with
        | str sv =>
          refine decodeStrField_strOk tl field (some sv) s
            (by simp [wfO, hwf.2]) ?_ h
          intro t ht
          injection ht with ht2
          subst ht2
          simpa [wfV] using hwf.1.2
        | null => exact Option.noConfusion h
        | bool b => exact Option.noConfusion h
        | num n => exact Option.noConfusion h
        | arr xs => exact Option.noConfusion h
        | obj kvs2 => exact Option.noConfusion h
    · exact decodeStrField_strOk tl field acc s (by simp [wfO, hwf.2]) hacc h
termination_by sizeOf kvs

theorem wfV_strFieldToJson (field s : String) (hfk : strOk field = true)
    (hs : strOk s = true) : wfV (strFieldToJson field s) = true := by
  show wfO (.cons field (.str s) .nil) = true
  simp [wfO, wfV, hfk, hs]

theorem decodeStrObj_strFieldToJson (field s : String) :
    decodeStrObj field (strFieldToJson field s) = some s := by
  show decodeStrField field (.cons field (.str s) .nil) none = some s
  simp [decodeStrField]

/-- C9: round-trip of the structured-decoding gates — any query string or
JSON body accepted by a gate (QueryOptions queries, the one-string-field
shapes `public_key` and `file`, and the opaque message body kept as JSON)
decodes to a structure whose re-encoding is again accepted by the same
gate and decodes to the same structure. -/
theorem C9_round_trip :
    (∀ s qo, (parseJson s).bind decodeQueryOptions = some qo →
       (parseJson (encodeQueryOptions qo)).bind decodeQueryOptions = some qo)
  ∧ (∀ field s pk, strOk field = true →
       (parseJson s).bind (decodeStrObj field) = some pk →
       (parseJson (encodeStrObj field pk)).bind (decodeStrObj field) = some pk)
  ∧ (∀ s j, parseJson s = some j → parseJson (encodeJson j) = some j) := by
  refine ⟨fun s qo h => ?_, fun field s pk hfield h => ?_,
          fun s j h => parseJson_encodeJson j (parseJson_wf s j h)⟩
  · cases hp : parseJson s with
    | none =>
      rw [hp] at h
      exact Option.noConfusion h
    | some j =>
      rw [hp] at h
      have h2 : decodeQueryOptions j = some qo := h
      cases j with
      | obj kvs =>
        have h3 : decodeQOFields kvs none none = some qo := h2
        have hb := decodeQOFields_bounds kvs none none qo
          (fun l hx => Option.noConfusion hx) (fun f hx => Option.noConfusion hx) h3
        have hparse : parseJson (encodeJson (qoToJson qo)) = some (qoToJson qo) :=
          parseJson_encodeJson _ (wfV_qoToJson qo)
        show (parseJson (encodeJson (qoToJson qo))).bind decodeQueryOptions = some qo
        rw [hparse]
        show decodeQueryOptions (qoToJson qo) = some qo
        exact decodeQueryOptions_qoToJson qo hb.1 hb.2
      | null => exact Option.noConfusion h2
      | bool b => exact Option.noConfusion h2
      | num n => exact Option.noConfusion h2
      | str s2 => exact Option.noConfusion h2
      | arr xs => exact Option.noConfusion h2
  · cases hp : parseJson s with
    | none =>
      rw [hp] at h
      exact Option.noConfusion h
    | some j =>
      rw [hp] at h
      have h2 : decodeStrObj field j = some pk := h
      have hwfj := parseJson_wf s j hp
      cases j with
      | obj kvs =>
        have h3 : decodeStrField field kvs none = some pk := h2
        have hwfo : wfO kvs = true := by simpa [wfV] using hwfj
        have hpk : strOk pk = true :=
          decodeStrField_strOk kvs field none pk hwfo
            (fun t ht => Option.noConfusion ht) h3
        have hparse : parseJson (encodeJson (strFieldToJson field pk)) =
            some (strFieldToJson field pk) :=
          parseJson_encodeJson _ (wfV_strFieldToJson field pk hfield hpk)
        show (parseJson (encodeJson (strFieldToJson field pk))).bind (decodeStrObj field) =
          some pk
        rw [hparse]
        show decodeStrObj field (strFieldToJson field pk) = some pk
        exact decodeStrObj_strFieldToJson field pk
      | null => exact Option.noConfusion h2
      | bool b => exact Option.noConfusion h2
      | num n => exact Option.noConfusion h2
      | str s2 => exact Option.noConfusion h2
      | arr xs => exact Option.noConfusion h2

/-- Witness for C9: the concrete accepted inputs `(limit 10)`,
`(public_key "pk1")` and the message body `(a [1])` re-encode to inputs
the same gates accept, decoding to the same structures. -/
theorem C9_round_trip_witness :
    (parseJson (encodeQueryOptions ⟨some 10, none⟩)).bind decodeQueryOptions =
      some ⟨some 10, none⟩
  ∧ (parseJson (encodeStrObj "public_key" "pk1")).bind (decodeStrObj "public_key") =
      some "pk1"
  ∧ parseJson (encodeJson (.obj (.cons "a" (.arr (.cons (.num 1) .nil)) .nil))) =
      some (.obj (.cons "a" (.arr (.cons (.num 1) .nil)) .nil)) :=
  ⟨C9_round_trip.1 "\x7b\"limit\":10\x7d" ⟨some 10, none⟩ (by rfl),
   C9_round_trip.2.1 "public_key" "\x7b\"public_key\":\"pk1\"\x7d" "pk1" (by rfl) (by rfl),
   C9_round_trip.2.2 "\x7b\"a\":[1]\x7d"
     (.obj (.cons "a" (.arr (.cons (.num 1) .nil)) .nil)) (by rfl)⟩

end OpenGroupServer
